import Mathlib

/-!
# protocache: hierarchical versioned cache keys over memcached

A shallow embedding of `protocache.go`.  Go strings and byte slices are byte
sequences, so both are lists of bytes here and the conversions `[]byte(s)` and
`string(b)` are the identity.  The memcache server behind the client is an
explicit state that every operation takes and returns.
-/

namespace Protocache

/-! ## Bytes and strings -/

/-- A Go `byte`. -/
abbrev Byte := Fin 256

/-- A Go `string` or `[]byte`: a sequence of bytes. -/
abbrev Bytes := List Byte

/-- The UTF-8 bytes of one character, as Go encodes the characters of a string
literal. -/
def utf8 (ch : Char) : Bytes :=
  let n := ch.toNat
  if n < 0x80 then [Fin.ofNat n]
  else if n < 0x800 then [Fin.ofNat (0xC0 + n / 64), Fin.ofNat (0x80 + n % 64)]
  else if n < 0x10000 then
    [Fin.ofNat (0xE0 + n / 4096), Fin.ofNat (0x80 + n / 64 % 64), Fin.ofNat (0x80 + n % 64)]
  else
    [Fin.ofNat (0xF0 + n / 262144), Fin.ofNat (0x80 + n / 4096 % 64),
     Fin.ofNat (0x80 + n / 64 % 64), Fin.ofNat (0x80 + n % 64)]

/-- The bytes of a string literal. -/
def str (s : String) : Bytes := s.data.flatMap utf8

/-! ## crypto/sha256 (FIPS 180-4), on 32-bit words kept as naturals below `2^32` -/

namespace SHA256

def add32 (a b : Nat) : Nat := (a + b) % 2 ^ 32

def rotr (x n : Nat) : Nat := ((x >>> n) ||| (x <<< (32 - n))) % 2 ^ 32

def not32 (x : Nat) : Nat := 2 ^ 32 - 1 - x % 2 ^ 32

def ch (x y z : Nat) : Nat := (x &&& y) ^^^ (not32 x &&& z)

def maj (x y z : Nat) : Nat := (x &&& y) ^^^ (x &&& z) ^^^ (y &&& z)

def bigSigma0 (x : Nat) : Nat := rotr x 2 ^^^ rotr x 13 ^^^ rotr x 22

def bigSigma1 (x : Nat) : Nat := rotr x 6 ^^^ rotr x 11 ^^^ rotr x 25

def smallSigma0 (x : Nat) : Nat := rotr x 7 ^^^ rotr x 18 ^^^ (x >>> 3)

def smallSigma1 (x : Nat) : Nat := rotr x 17 ^^^ rotr x 19 ^^^ (x >>> 10)

/-- The round constants. -/
def K : List Nat :=
  [0x428a2f98, 0x71374491, 0xb5c0fbcf, 0xe9b5dba5, 0x3956c25b, 0x59f111f1, 0x923f82a4, 0xab1c5ed5,
   0xd807aa98, 0x12835b01, 0x243185be, 0x550c7dc3, 0x72be5d74, 0x80deb1fe, 0x9bdc06a7, 0xc19bf174,
   0xe49b69c1, 0xefbe4786, 0x0fc19dc6, 0x240ca1cc, 0x2de92c6f, 0x4a7484aa, 0x5cb0a9dc, 0x76f988da,
   0x983e5152, 0xa831c66d, 0xb00327c8, 0xbf597fc7, 0xc6e00bf3, 0xd5a79147, 0x06ca6351, 0x14292967,
   0x27b70a85, 0x2e1b2138, 0x4d2c6dfc, 0x53380d13, 0x650a7354, 0x766a0abb, 0x81c2c92e, 0x92722c85,
   0xa2bfe8a1, 0xa81a664b, 0xc24b8b70, 0xc76c51a3, 0xd192e819, 0xd6990624, 0xf40e3585, 0x106aa070,
   0x19a4c116, 0x1e376c08, 0x2748774c, 0x34b0bcb5, 0x391c0cb3, 0x4ed8aa4a, 0x5b9cca4f, 0x682e6ff3,
   0x748f82ee, 0x78a5636f, 0x84c87814, 0x8cc70208, 0x90befffa, 0xa4506ceb, 0xbef9a3f7, 0xc67178f2]

/-- The eight working words. -/
structure State where
  a : Nat
  b : Nat
  c : Nat
  d : Nat
  e : Nat
  f : Nat
  g : Nat
  h : Nat

/-- The initial hash value. -/
def init : State :=
  ⟨0x6a09e667, 0xbb67ae85, 0x3c6ef372, 0xa54ff53a, 0x510e527f, 0x9b05688c, 0x1f83d9ab, 0x5be0cd19⟩

/-- One round with round constant `k` and schedule word `w`. -/
def round (s : State) (k w : Nat) : State :=
  let t1 := add32 (add32 (add32 (add32 s.h (bigSigma1 s.e)) (ch s.e s.f s.g)) k) w
  let t2 := add32 (bigSigma0 s.a) (maj s.a s.b s.c)
  ⟨add32 t1 t2, s.a, s.b, s.c, add32 s.d t1, s.e, s.f, s.g⟩

/-- The rounds for the constants `ks`; `w` is the sliding window of the sixteen
schedule words from the current one on. -/
def rounds : List Nat → List Nat → State → State
  | [], _, s => s
  | k :: ks, w, s =>
    let next := add32 (add32 (add32 (smallSigma1 (w.getD 14 0)) (w.getD 9 0))
      (smallSigma0 (w.getD 1 0))) (w.getD 0 0)
    rounds ks (w.drop 1 ++ [next]) (round s k (w.getD 0 0))

/-- The big-endian 32-bit words of a byte sequence, four bytes each. -/
def words : List Nat → List Nat
  | b0 :: b1 :: b2 :: b3 :: rest => (b0 * 2 ^ 24 + b1 * 2 ^ 16 + b2 * 2 ^ 8 + b3) :: words rest
  | _ => []

/-- The compression of one 64-byte block into the hash value. -/
def block (s : State) (chunk : List Nat) : State :=
  let t := rounds K (words chunk) s
  ⟨add32 s.a t.a, add32 s.b t.b, add32 s.c t.c, add32 s.d t.d,
   add32 s.e t.e, add32 s.f t.f, add32 s.g t.g, add32 s.h t.h⟩

/-- The compression of `n` consecutive blocks. -/
def blocks : Nat → List Nat → State → State
  | 0, _, s => s
  | n + 1, bs, s => blocks n (bs.drop 64) (block s (bs.take 64))

/-- The big-endian bytes of a 64-bit length. -/
def lengthBytes (n : Nat) : List Nat :=
  [n / 2 ^ 56 % 256, n / 2 ^ 48 % 256, n / 2 ^ 40 % 256, n / 2 ^ 32 % 256,
   n / 2 ^ 24 % 256, n / 2 ^ 16 % 256, n / 2 ^ 8 % 256, n % 256]

/-- The message followed by the bit `1`, zeros up to 56 modulo 64, and the
length in bits. -/
def pad (msg : List Nat) : List Nat :=
  msg ++ [0x80] ++ List.replicate ((119 - msg.length % 64) % 64) 0
    ++ lengthBytes (msg.length * 8 % 2 ^ 64)

/-- The four big-endian bytes of a word. -/
def wordBytes (w : Nat) : Bytes :=
  [Fin.ofNat (w / 2 ^ 24), Fin.ofNat (w / 2 ^ 16), Fin.ofNat (w / 2 ^ 8), Fin.ofNat w]

/-- The digest `sha256.Sum256(data)`, 32 bytes. -/
def Sum256 (data : Bytes) : Bytes :=
  let p := pad (data.map Fin.val)
  let s := blocks (p.length / 64) p init
  wordBytes s.a ++ wordBytes s.b ++ wordBytes s.c ++ wordBytes s.d ++
  wordBytes s.e ++ wordBytes s.f ++ wordBytes s.g ++ wordBytes s.h

end SHA256

/-! ## encoding/hex -/

/-- The table `hextable = "0123456789abcdef"`. -/
def hextable : Bytes := str "0123456789abcdef"

/-- The function `hex.EncodeToString`: two table look-ups per byte, high nibble
first. -/
def hexEncodeToString : Bytes → Bytes
  | [] => []
  | v :: rest => hextable.getD (v.val >>> 4) 0 :: hextable.getD (v.val &&& 0x0f) 0
      :: hexEncodeToString rest

/-! ## strings.Join, strconv and fmt -/

/-- The function `strings.Join(elems, sep)`. -/
def Join : List Bytes → Bytes → Bytes
  | [], _ => []
  | [a], _ => a
  | a :: b :: rest, sep => a ++ sep ++ Join (b :: rest) sep

/-- The errors the program handles or returns. -/
inductive Error where
  /-- The value `memcache.ErrCacheMiss`. -/
  | ErrCacheMiss
  /-- Any other failure of a memcache request: network, server, malformed key. -/
  | ErrStore (code : Nat)
  /-- The server's refusal to increment a value that is not a number. -/
  | ErrNonNumeric
  /-- The value `strconv.ErrSyntax`. -/
  | ErrSyntax
  /-- The value `strconv.ErrRange`. -/
  | ErrRange
  /-- The error built by `Logger.Error("Set", "Item too Big", n, ...)`. -/
  | ErrTooBig (size : Nat)
  /-- A failure of `proto.Marshal`, `proto.Unmarshal` or gzip. -/
  | ErrCodec (code : Nat)
  deriving DecidableEq, Repr

deriving instance DecidableEq for Except

/-- The loop of `strconv.ParseUint(s, 10, 64)` over the remaining bytes, `n`
being the value read so far: a byte that is not a digit is a syntax error, a
value that leaves 64 bits is a range error. -/
def parseLoop : Bytes → Nat → Except Error Nat
  | [], n => .ok n
  | c :: cs, n =>
    if 48 ≤ c.val ∧ c.val ≤ 57 then
      if n ≥ (2 ^ 64 - 1) / 10 + 1 then .error .ErrRange
      else
        let n1 := n * 10 + (c.val - 48)
        if n1 > 2 ^ 64 - 1 then .error .ErrRange else parseLoop cs n1
    else .error .ErrSyntax

/-- The function `strconv.ParseUint(s, 10, 64)`. -/
def ParseUint (s : Bytes) : Except Error Nat :=
  if s = [] then .error .ErrSyntax else parseLoop s 0

/-- The decimal digits of `n`, last digit first, at most `fuel` of them. -/
def digitsRev : Nat → Nat → Bytes
  | 0, _ => []
  | fuel + 1, n => Fin.ofNat (48 + n % 10) :: (if n < 10 then [] else digitsRev fuel (n / 10))

/-- The verb `%d` on a `uint64`: its decimal digits (at most twenty). -/
def FormatUint (n : Nat) : Bytes := (digitsRev 20 n).reverse

/-! ## The memcache client and the server behind it -/

/-- The struct `memcache.Item`. -/
structure Item where
  Key : Bytes
  Value : Bytes
  Flags : Nat
  Expiration : Int
  deriving DecidableEq, Repr

/-- What the server holds under one key: the value, the flags and the
expiration the entry was written with. -/
structure Entry where
  Value : Bytes
  Flags : Nat
  Expiration : Int
  deriving DecidableEq, Repr

/-- Modelled from the spec: the backing store (`memcache.Client` and its
server), which is not part of the repository.  `items` is what the server
holds under each key and has not expired at the time `now` of the server's
clock (Unix seconds); `faults` scripts the outcome of the coming requests, one
entry per request: `some err` makes that request fail with `err` and change
nothing, `none` (or an exhausted script) lets it go through.  The clock stands
still over the calls of one scenario, so an entry that is live when it is
written stays until it is overwritten; eviction is not modelled. -/
structure Client where
  items : Bytes → Option Entry
  faults : List (Option Error)
  now : Int

/-- The start of a request: the scripted fault, if any, is consumed. -/
def Client.request (c : Client) : Option Error × Client :=
  match c.faults with
  | [] => (none, c)
  | f :: rest => (f, { c with faults := rest })

/-- The server's content with `e` stored under `key`. -/
def Client.put (c : Client) (key : Bytes) (e : Entry) : Client :=
  { c with items := fun k => if k = key then some e else c.items k }

/-- Modelled from the spec: `get(key) -> (value, flagByte, found)`, an absent
key being `ErrCacheMiss`, distinct from any other failure. -/
def Client.Get (c : Client) (key : Bytes) : Except Error Item × Client :=
  match c.request with
  | (some err, c1) => (.error err, c1)
  | (none, c1) =>
    match c1.items key with
    | none => (.error .ErrCacheMiss, c1)
    | some e =>
      (.ok { Key := key, Value := e.Value, Flags := e.Flags, Expiration := e.Expiration }, c1)

/-- The server's content with nothing under `key`. -/
def Client.erase (c : Client) (key : Bytes) : Client :=
  { c with items := fun k => if k = key then none else c.items k }

/-- Modelled from the spec: the expiration semantics of the store, as the
memcached protocol reads `expirationSeconds`.  Zero never expires; a negative
value is expired at once; a value up to 30 days (2592000 seconds) counts from
now on; a greater value is a Unix time, and the entry is expired when that
time is not after `now`. -/
def expiredAtOnce (now exptime : Int) : Bool :=
  decide (exptime < 0) || (decide (2592000 < exptime) && decide (exptime ≤ now))

/-- The server's content after a write of `e` under `key`: the entry replaces
what was there, and is gone at once when its expiration has already passed. -/
def Client.store (c : Client) (key : Bytes) (e : Entry) : Client :=
  if expiredAtOnce c.now e.Expiration then c.erase key else c.put key e

/-- Modelled from the spec: `set(key, value, flagByte, expirationSeconds)`,
an unconditional write. -/
def Client.Set (c : Client) (it : Item) : Except Error Unit × Client :=
  match c.request with
  | (some err, c1) => (.error err, c1)
  | (none, c1) =>
    (.ok (),
      c1.store it.Key { Value := it.Value, Flags := it.Flags, Expiration := it.Expiration })

/-- Modelled from the spec: `increment(key, delta) -> newValue`, which fails
with a cache miss on an absent key and fails loudly on content that is not a
decimal 64-bit number; the new value wraps at 64 bits and replaces the old one,
flags and expiration kept. -/
def Client.Increment (c : Client) (key : Bytes) (delta : Nat) : Except Error Nat × Client :=
  match c.request with
  | (some err, c1) => (.error err, c1)
  | (none, c1) =>
    match c1.items key with
    | none => (.error .ErrCacheMiss, c1)
    | some e =>
      match ParseUint e.Value with
      | .error _ => (.error .ErrNonNumeric, c1)
      | .ok n =>
        let n1 := (n + delta) % 2 ^ 64
        (.ok n1, c1.put key { e with Value := FormatUint n1 })

/-- The serializer and the gzip streams the program calls, which are
libraries outside the repository: `proto.Marshal`, `proto.Unmarshal` (which
returns an error and leaves the decoded message in its second argument), a
gzip writer run to its end, and a gzip reader run to its end. -/
structure Codec (Msg : Type) where
  Marshal : Msg → Except Error Bytes
  Unmarshal : Bytes → Msg → Option Error × Msg
  gzipWrite : Bytes → Except Error Bytes
  gzipRead : Bytes → Except Error Bytes

/-! ## The client of the program -/

/-- The constant `separator`. -/
def separator : Bytes := str "|"

/-- The constant `TOO_BIG`. -/
def TOO_BIG : Nat := 1024 * 200

/-- The logger of the client (`logxi.Logger`), a library outside the
repository.  Of its calls only one returns something the program uses:
`Error size p s k` stands for
`Logger.Error("Set", "Item too Big", size, "primaryContext", p, "secondaryContext", s, "key", k)`,
whose result `Set` returns; it is an error for a logger that logs and nil for
one that is switched off. -/
structure Logger where
  Error : Nat → Bytes → Bytes → Bytes → Option Error

/-- The struct `PC`: the scope and the logger; the memcache server is passed as
a state. -/
structure PC where
  Scope : Bytes
  Logger : Logger

/-- The method `PC.HashKey`. -/
def HashKey (_pc : PC) (keys : List Bytes) : Bytes :=
  let stringToHash := Join keys separator
  let hash := SHA256.Sum256 stringToHash
  hexEncodeToString hash

/-- The method `PC.ConcatKeys`. -/
def ConcatKeys (_pc : PC) (keys : List Bytes) : Bytes :=
  Join keys separator

/-- The method `PC.VersionedKey`: the hash of `key`, the separator and the
version in decimal. -/
def VersionedKey (pc : PC) (key : Bytes) (version : Nat) : Bytes :=
  let stringToHash := key ++ separator ++ FormatUint version
  HashKey pc [stringToHash]

/-- The method `PC.initCounter`: the counter is written as `"1"`. -/
def initCounter (_pc : PC) (key : Bytes) (c : Client) : Except Error Nat × Client :=
  match c.Set { Key := key, Value := str "1", Flags := 0, Expiration := 0 } with
  | (.error err, c1) => (.error err, c1)
  | (.ok _, c1) => (.ok 1, c1)

/-- The method `PC.valueToCounter`. -/
def valueToCounter (_pc : PC) (value : Bytes) : Except Error Nat :=
  match ParseUint value with
  | .error err => .error err
  | .ok counter => .ok counter

/-- The method `PC.getKeyVersion`: a cache miss initialises the counter, any
other error of the read is returned. -/
def getKeyVersion (pc : PC) (key : Bytes) (c : Client) : Except Error Nat × Client :=
  match c.Get key with
  | (.error err, c1) =>
    match err with
    | .ErrCacheMiss => initCounter pc key c1
    | _ => (.error err, c1)
  | (.ok result, c1) => (valueToCounter pc result.Value, c1)

/-- The method `PC.getVersionedKey`: on any error of `getKeyVersion` the
counter is initialised. -/
def getVersionedKey (pc : PC) (key : Bytes) (c : Client) : Except Error Bytes × Client :=
  let keyToGet := HashKey pc [key]
  match getKeyVersion pc keyToGet c with
  | (.error _, c1) =>
    match initCounter pc keyToGet c1 with
    | (.error err, c2) => (.error err, c2)
    | (.ok counter, c2) => (.ok (VersionedKey pc keyToGet counter), c2)
  | (.ok counter, c1) => (.ok (VersionedKey pc keyToGet counter), c1)

/-- The method `PC.getSPSK`: the scoped, primary, secondary key. -/
def getSPSK (pc : PC) (primaryContext secondaryContext key : Bytes) (c : Client) :
    Except Error Bytes × Client :=
  match getVersionedKey pc pc.Scope c with
  | (.error err, c1) => (.error err, c1)
  | (.ok scopeAlone, c1) =>
    match getVersionedKey pc (ConcatKeys pc [scopeAlone, primaryContext]) c1 with
    | (.error err, c2) => (.error err, c2)
    | (.ok scopeAndPrimary, c2) =>
      match getVersionedKey pc (ConcatKeys pc [scopeAndPrimary, secondaryContext]) c2 with
      | (.error err, c3) => (.error err, c3)
      | (.ok primaryAndSecondary, c3) =>
        let fullScopeAndKey := HashKey pc [primaryAndSecondary, key]
        (.ok fullScopeAndKey, c3)

/-- The method `PC.invalidateKey`: the error of the increment is logged and
dropped. -/
def invalidateKey (_pc : PC) (key : Bytes) (c : Client) : Client :=
  (c.Increment key 1).2

/-- The method `PC.invalidateScope`. -/
def invalidateScope (pc : PC) (c : Client) : Client :=
  let scopeKey := HashKey pc [pc.Scope]
  invalidateKey pc scopeKey c

/-- The method `PC.invalidatePrimary`. -/
def invalidatePrimary (pc : PC) (primaryContext : Bytes) (c : Client) : Client :=
  match getVersionedKey pc pc.Scope c with
  | (.error _, c1) => c1
  | (.ok scopeAlone, c1) =>
    let scopeAndPrimary := ConcatKeys pc [scopeAlone, primaryContext]
    invalidateKey pc scopeAndPrimary c1

/-- The method `PC.invalidateSecondary`. -/
def invalidateSecondary (pc : PC) (primaryContext secondaryContext : Bytes) (c : Client) :
    Client :=
  match getVersionedKey pc pc.Scope c with
  | (.error _, c1) => c1
  | (.ok scopeAlone, c1) =>
    match getVersionedKey pc (ConcatKeys pc [scopeAlone, primaryContext]) c1 with
    | (.error _, c2) => c2
    | (.ok scopeAndPrimary, c2) =>
      let primaryAndSecondary := ConcatKeys pc [scopeAndPrimary, secondaryContext]
      invalidateKey pc primaryAndSecondary c2

/-- The function `uncompressBytes`. -/
def uncompressBytes {Msg : Type} (cd : Codec Msg) (value : Bytes) : Except Error Bytes :=
  cd.gzipRead value

/-- The function `compressBytes`. -/
def compressBytes {Msg : Type} (cd : Codec Msg) (value : Bytes) : Except Error Bytes :=
  cd.gzipWrite value

/-- The conversion `int32(x)`: the low 32 bits of `x`, read as signed. -/
def int32 (x : Int) : Int := (x + 2 ^ 31) % 2 ^ 32 - 2 ^ 31

/-- The constant `time.Second`, in nanoseconds. -/
def Second : Int := 1000000000

/-- The method `PC.Get`: the error returned (if any), the message left in
`result`, and the store. -/
def Get {Msg : Type} (pc : PC) (cd : Codec Msg) (primaryContext secondaryContext key : Bytes)
    (result : Msg) (c : Client) : Option Error × Msg × Client :=
  match getSPSK pc primaryContext secondaryContext key c with
  | (.error err, c1) => (some err, result, c1)
  | (.ok encodedKey, c1) =>
    match c1.Get encodedKey with
    | (.error err, c2) => (some err, result, c2)
    | (.ok item, c2) =>
      if item.Flags > 0 then
        match uncompressBytes cd item.Value with
        | .error err => (some err, result, c2)
        | .ok value =>
          let r := cd.Unmarshal value result
          (r.1, r.2, c2)
      else
        let r := cd.Unmarshal item.Value result
        (r.1, r.2, c2)

/-- The method `PC.Set`: the error returned (if any) and the store.  The
duration `expiration` is in nanoseconds.  For an item over `TOO_BIG` the value
returned is the one the logger returns. -/
def Set {Msg : Type} (pc : PC) (cd : Codec Msg) (primaryContext secondaryContext key : Bytes)
    (value : Msg) (expiration : Int) (c : Client) : Option Error × Client :=
  match getSPSK pc primaryContext secondaryContext key c with
  | (.error err, c1) => (some err, c1)
  | (.ok encodedKey, c1) =>
    match cd.Marshal value with
    | .error err => (some err, c1)
    | .ok protoBytes =>
      let item : Item :=
        if protoBytes.length ≥ 1000 then
          match compressBytes cd protoBytes with
          | .ok cBytes =>
            { Key := encodedKey, Value := cBytes, Flags := 1,
              Expiration := int32 (Int.tdiv expiration Second) }
          | .error _ =>
            { Key := encodedKey, Value := protoBytes, Flags := 0,
              Expiration := int32 (Int.tdiv expiration Second) }
        else
          { Key := encodedKey, Value := protoBytes, Flags := 0,
            Expiration := int32 (Int.tdiv expiration Second) }
      if item.Value.length > TOO_BIG then
        (pc.Logger.Error item.Value.length primaryContext secondaryContext key, c1)
      else
        match c1.Set item with
        | (.error err, c2) => (some err, c2)
        | (.ok _, c2) => (none, c2)

/-! ## Reading the state -/

/-- The number the entry under `key` holds, if there is an entry and it is a
decimal unsigned 64-bit integer. -/
def Client.counter (c : Client) (key : Bytes) : Option Nat :=
  match c.items key with
  | none => none
  | some e =>
    match ParseUint e.Value with
    | .ok n => some n
    | .error _ => none

/-- The store with nothing in it and no failure scripted, its clock at a
time in November 2023. -/
def Client.empty : Client := { items := fun _ => none, faults := [], now := 1700000000 }

/-- The version a resolution takes for the counter under `key`: the number it
holds, and `1` when it is absent or holds no number. -/
def Client.version (c : Client) (key : Bytes) : Nat :=
  (c.counter key).getD 1

/-- The store a resolution of the counter under `key` leaves when no request
fails: a counter that is absent or holds no number has been written as `"1"`. -/
def Client.ensure (c : Client) (key : Bytes) : Client :=
  match c.counter key with
  | some _ => c
  | none => c.put key { Value := str "1", Flags := 0, Expiration := 0 }

/-- The key of the scope counter. -/
def scopeKey (pc : PC) : Bytes := HashKey pc [pc.Scope]

/-- The versioned scope, for the versions `ver` of the counters. -/
def versionedScope (pc : PC) (ver : Bytes → Nat) : Bytes :=
  VersionedKey pc (scopeKey pc) (ver (scopeKey pc))

/-- The key of the counter of primary context `p`. -/
def primaryKey (pc : PC) (ver : Bytes → Nat) (p : Bytes) : Bytes :=
  HashKey pc [ConcatKeys pc [versionedScope pc ver, p]]

/-- The versioned scope and primary context. -/
def versionedPrimary (pc : PC) (ver : Bytes → Nat) (p : Bytes) : Bytes :=
  VersionedKey pc (primaryKey pc ver p) (ver (primaryKey pc ver p))

/-- The key of the counter of secondary context `s` under `p`. -/
def secondaryKey (pc : PC) (ver : Bytes → Nat) (p s : Bytes) : Bytes :=
  HashKey pc [ConcatKeys pc [versionedPrimary pc ver p, s]]

/-- The versioned scope, primary and secondary context. -/
def versionedSecondary (pc : PC) (ver : Bytes → Nat) (p s : Bytes) : Bytes :=
  VersionedKey pc (secondaryKey pc ver p s) (ver (secondaryKey pc ver p s))

/-- The physical key as a function of the versions `ver` of the counters. -/
def physicalKey (pc : PC) (ver : Bytes → Nat) (p s k : Bytes) : Bytes :=
  HashKey pc [versionedSecondary pc ver p s, k]

/-! ## Concrete inputs -/

/-- A logger that logs: `Error` returns an error. -/
def loggingOn : Logger := { Error := fun size _ _ _ => some (.ErrTooBig size) }

/-- A logger that is switched off: `Error` returns nil. -/
def loggingOff : Logger := { Error := fun _ _ _ _ => none }

/-- The client of the tests, with scope `"UnitTests"`, its logger logging. -/
def unitTests : PC := { Scope := str "UnitTests", Logger := loggingOn }

/-- The client of the tests with its logger switched off. -/
def unitTestsQuiet : PC := { Scope := str "UnitTests", Logger := loggingOff }

/-- A counter entry holding `value`. -/
def counterEntry (value : Bytes) : Entry :=
  { Value := value, Flags := 0, Expiration := 0 }

/-- The versioned scope `"UnitTests"`, its counter being at 1. -/
def scopeV1 : Bytes :=
  VersionedKey unitTests (HashKey unitTests [unitTests.Scope]) 1

/-- The key of the counter of primary context `"Pri"` in scope `"UnitTests"`,
the scope counter being at 1. -/
def priKey : Bytes :=
  HashKey unitTests [ConcatKeys unitTests [scopeV1, str "Pri"]]

/-- The versioned primary context `"Pri"`, its counter being at 1. -/
def priV1 : Bytes :=
  VersionedKey unitTests priKey 1

/-- The key of the counter of secondary context `"Sec"` under `"Pri"`, the
scope and primary counters being at 1. -/
def secKey : Bytes :=
  HashKey unitTests [ConcatKeys unitTests [priV1, str "Sec"]]

/-- The versioned secondary context `"Sec"`, its counter being at 1. -/
def secV1 : Bytes :=
  VersionedKey unitTests secKey 1

/-- The empty store after the scope counter was created. -/
def scopeAtOne : Client :=
  Client.empty.put (HashKey unitTests [unitTests.Scope]) (counterEntry (str "1"))

/-- The empty store after the counters of the scope and of `"Pri"` were
created. -/
def primaryAtOne : Client :=
  scopeAtOne.put priKey (counterEntry (str "1"))

/-- The empty store after the counters of the scope, of `"Pri"` and of `"Sec"`
under `"Pri"` were created. -/
def secondaryAtOne : Client :=
  primaryAtOne.put secKey (counterEntry (str "1"))

/-- A store whose scope counter holds 1 and whose counter of `"Pri"` holds 5. -/
def primaryAtFive : Client :=
  (Client.empty.put (HashKey unitTests [unitTests.Scope]) (counterEntry (str "1"))).put
    priKey (counterEntry (str "5"))

/-- A store whose scope counter and counter of `"Pri"` hold 1 and whose
counter of `"Sec"` under `"Pri"` holds 5. -/
def secondaryAtFive : Client :=
  ((Client.empty.put (HashKey unitTests [unitTests.Scope]) (counterEntry (str "1"))).put
    priKey (counterEntry (str "1"))).put secKey (counterEntry (str "5"))

/-- A store whose counter of the raw key `"Bar"` holds 5 and whose next
request fails with an error that is not a cache miss. -/
def barAtFiveReadFails : Client :=
  { items := (Client.empty.put (HashKey unitTests [str "Bar"]) (counterEntry (str "5"))).items,
    faults := [some (.ErrStore 1)],
    now := 1700000000 }

/-- The lowercase hexadecimal digit of a number below sixteen: `'0'` to `'9'`,
then `'a'` to `'f'`. -/
def lowerHexDigit (d : Nat) : Byte :=
  if d < 10 then Fin.ofNat (48 + d) else Fin.ofNat (97 + (d - 10))

/-- The lowercase hexadecimal encoding of a byte sequence, as the
specification words it: two digits per byte, the high one first. -/
def lowerHex (b : Bytes) : Bytes :=
  b.flatMap fun v => [lowerHexDigit (v.val / 16), lowerHexDigit (v.val % 16)]

/-- A store whose counter of the raw key `"Bar"` holds bytes that are no
number. -/
def barCorrupt : Client :=
  Client.empty.put (HashKey unitTests [str "Bar"]) (counterEntry (str "x7"))

/-- The value and the flag `Set` stores for the serialized bytes `b`: the
gzip bytes and 1 when `b` has 1000 bytes or more and compression succeeds, `b`
and 0 otherwise. -/
def encode {Msg : Type} (cd : Codec Msg) (b : Bytes) : Bytes × Nat :=
  if b.length ≥ 1000 then
    match compressBytes cd b with
    | .ok cBytes => (cBytes, 1)
    | .error _ => (b, 0)
  else (b, 0)

/-- A stand-in for the serializer and for gzip, on messages that are byte
strings: the message is its own serialization, and the writer puts the two
magic bytes of gzip in front, which the reader takes off.  Its output is not
the output of gzip; it shares with gzip that the reader inverts the writer and
that data which does not compress, such as `noise`, comes out longer than it
went in. -/
def frameCodec : Codec Bytes :=
  { Marshal := fun m => .ok m
    Unmarshal := fun b _ => (none, b)
    gzipWrite := fun b => .ok (0x1f :: 0x8b :: b)
    gzipRead := fun z =>
      match z with
      | 0x1f :: 0x8b :: b => .ok b
      | _ => .error (.ErrCodec 0) }

/-- The bytes of a linear congruential generator, `n` of them from the state
`x` on: `x' = (1103515245 x + 12345) mod 2^31`, of which bits 16 to 23 are the
next byte.  Such bytes do not compress: gzip gives back more than it is
given. -/
def noise : Nat → Nat → Bytes
  | 0, _ => []
  | n + 1, x =>
    let y := (x * 1103515245 + 12345) % 2 ^ 31
    Fin.ofNat (y / 2 ^ 16) :: noise n y

/-- A message of 1000 bytes that do not compress, the least length that is
handed to gzip. -/
def thousandBytes : Bytes := noise 1000 1

/-- A message of 204801 bytes that do not compress, one more than `TOO_BIG`. -/
def oversize : Bytes := noise 204801 1

/-- The item `Set` builds for the physical key `encodedKey`, the serialized
bytes `b` and the duration `expiration`. -/
def setItem {Msg : Type} (cd : Codec Msg) (encodedKey b : Bytes) (expiration : Int) : Item :=
  { Key := encodedKey, Value := (encode cd b).1, Flags := (encode cd b).2,
    Expiration := int32 (Int.tdiv expiration Second) }

/-- A store whose three counters of `("Pri", "Sec")` hold 1 and whose fourth
request fails: the three reads of a key resolution go through, the write that
follows them does not. -/
def writeFails : Client :=
  { items := secondaryAtOne.items,
    faults := [none, none, none, some (.ErrStore 1)],
    now := 1700000000 }

/-- A store whose scope counter holds the greatest 64-bit number. -/
def scopeAtMax : Client :=
  Client.empty.put (HashKey unitTests [unitTests.Scope])
    (counterEntry (str "18446744073709551615"))

/-- A store whose scope counter holds 5 and whose next request fails with an
error that is not a cache miss. -/
def scopeAtFiveReadFails : Client :=
  { items := (Client.empty.put (HashKey unitTests [unitTests.Scope])
      (counterEntry (str "5"))).items,
    faults := [some (.ErrStore 1)],
    now := 1700000000 }

/-- A store whose counter of the raw key `"Bar"` holds 5. -/
def barAtFive : Client :=
  Client.empty.put (HashKey unitTests [str "Bar"]) (counterEntry (str "5"))

/-! ## Basic facts -/

theorem ParseUint_one : ParseUint (str "1") = .ok 1 := by decide

theorem hexEncodeToString_length (b : Bytes) :
    (hexEncodeToString b).length = 2 * b.length := by
  induction b with
  | nil => rfl
  | cons v rest ih => simp only [hexEncodeToString, List.length_cons, ih]; omega

theorem Sum256_length (data : Bytes) : (SHA256.Sum256 data).length = 32 := by
  simp [SHA256.Sum256, SHA256.wordBytes]

theorem HashKey_length (pc : PC) (keys : List Bytes) : (HashKey pc keys).length = 64 := by
  simp [HashKey, hexEncodeToString_length, Sum256_length]

theorem VersionedKey_length (pc : PC) (key : Bytes) (n : Nat) :
    (VersionedKey pc key n).length = 64 := by
  simp [VersionedKey, HashKey_length]

theorem request_of_healthy {c : Client} (hf : c.faults = []) : c.request = (none, c) := by
  simp [Client.request, hf]

theorem put_faults (c : Client) (key : Bytes) (e : Entry) : (c.put key e).faults = c.faults :=
  rfl

theorem put_items_self (c : Client) (key : Bytes) (e : Entry) :
    (c.put key e).items key = some e := by
  simp [Client.put]

theorem put_items_of_ne (c : Client) (key : Bytes) (e : Entry) {x : Bytes} (h : x ≠ key) :
    (c.put key e).items x = c.items x := by
  simp [Client.put, h]

theorem expiredAtOnce_zero (now : Int) : expiredAtOnce now 0 = false := by
  simp [expiredAtOnce]

/-- A write with expiration 0, as the counters are written, never expires. -/
theorem store_of_zero (c : Client) (key value : Bytes) (flags : Nat) :
    c.store key { Value := value, Flags := flags, Expiration := 0 }
      = c.put key { Value := value, Flags := flags, Expiration := 0 } := by
  simp [Client.store, expiredAtOnce_zero]

theorem store_faults (c : Client) (key : Bytes) (e : Entry) :
    (c.store key e).faults = c.faults := by
  unfold Client.store
  split <;> rfl

theorem store_now (c : Client) (key : Bytes) (e : Entry) : (c.store key e).now = c.now := by
  unfold Client.store
  split <;> rfl

theorem store_items_of_ne (c : Client) (key : Bytes) (e : Entry) {x : Bytes} (h : x ≠ key) :
    (c.store key e).items x = c.items x := by
  unfold Client.store
  split
  · simp [Client.erase, h]
  · simp [Client.put, h]

theorem store_items_self (c : Client) (key : Bytes) (e : Entry) :
    (c.store key e).items key = if expiredAtOnce c.now e.Expiration then none else some e := by
  unfold Client.store
  split
  · simp [Client.erase]
  · simp [Client.put]

theorem ensure_faults (c : Client) (key : Bytes) : (c.ensure key).faults = c.faults := by
  unfold Client.ensure
  split <;> rfl

theorem ensure_items_of_ne (c : Client) (key : Bytes) {x : Bytes} (h : x ≠ key) :
    (c.ensure key).items x = c.items x := by
  unfold Client.ensure
  split
  · rfl
  · exact put_items_of_ne c _ _ h

theorem ensure_of_counter {c : Client} {key : Bytes} {n : Nat} (h : c.counter key = some n) :
    c.ensure key = c := by
  simp [Client.ensure, h]

theorem counter_put_one (c : Client) (key : Bytes) :
    (c.put key { Value := str "1", Flags := 0, Expiration := 0 }).counter key = some 1 := by
  simp [Client.counter, Client.put, ParseUint_one]

theorem counter_of_items_eq {c d : Client} {x : Bytes} (h : d.items x = c.items x) :
    d.counter x = c.counter x := by
  simp [Client.counter, h]

/-- A resolution leaves every version as it was. -/
theorem version_ensure (c : Client) (key x : Bytes) :
    (c.ensure key).version x = c.version x := by
  unfold Client.version
  by_cases hx : x = key
  · subst hx
    cases h : c.counter x with
    | some n => rw [ensure_of_counter h, h]
    | none => simp [Client.ensure, h, counter_put_one]
  · rw [counter_of_items_eq (ensure_items_of_ne c key hx)]

theorem counter_ensure_self (c : Client) (key : Bytes) :
    (c.ensure key).counter key = some (c.version key) := by
  cases h : c.counter key with
  | some n => rw [ensure_of_counter h, h]; simp [Client.version, h]
  | none => simp [Client.ensure, h, counter_put_one, Client.version]

theorem counter_ensure_of_counter {c : Client} {x : Bytes} {n : Nat} (key : Bytes)
    (h : c.counter x = some n) : (c.ensure key).counter x = some n := by
  by_cases hx : x = key
  · subst hx; rw [ensure_of_counter h, h]
  · rw [counter_of_items_eq (ensure_items_of_ne c key hx), h]

theorem version_of_counter {c : Client} {x : Bytes} {n : Nat} (h : c.counter x = some n) :
    c.version x = n := by
  simp [Client.version, h]

/-- Key resolution on a store whose requests do not fail. -/
theorem getVersionedKey_of_healthy (pc : PC) (key : Bytes) {c : Client} (hf : c.faults = []) :
    getVersionedKey pc key c
      = (.ok (VersionedKey pc (HashKey pc [key]) (c.version (HashKey pc [key]))),
         c.ensure (HashKey pc [key])) := by
  unfold getVersionedKey getKeyVersion initCounter Client.Get Client.Set
  simp only [request_of_healthy hf]
  unfold Client.version Client.ensure Client.counter valueToCounter
  cases hit : c.items (HashKey pc [key]) with
  | none => simp [request_of_healthy hf, store_of_zero]
  | some it =>
    cases hp : ParseUint it.Value with
    | ok n => simp [hp]
    | error e => simp [hp, request_of_healthy hf, store_of_zero]

/-- Key building on a store whose requests do not fail. -/
theorem getSPSK_of_healthy (pc : PC) (p s k : Bytes) {c : Client} (hf : c.faults = []) :
    getSPSK pc p s k c
      = (.ok (physicalKey pc c.version p s k),
         ((c.ensure (scopeKey pc)).ensure (primaryKey pc c.version p)).ensure
           (secondaryKey pc c.version p s)) := by
  have hf1 : (c.ensure (scopeKey pc)).faults = [] := by rw [ensure_faults, hf]
  have hf2 : ((c.ensure (scopeKey pc)).ensure (primaryKey pc c.version p)).faults = [] := by
    rw [ensure_faults, hf1]
  unfold getSPSK
  rw [getVersionedKey_of_healthy pc _ hf]
  simp only []
  have e1 : HashKey pc [ConcatKeys pc
      [VersionedKey pc (HashKey pc [pc.Scope]) (c.version (HashKey pc [pc.Scope])), p]]
      = primaryKey pc c.version p := rfl
  have hf1' : (c.ensure (HashKey pc [pc.Scope])).faults = [] := hf1
  rw [getVersionedKey_of_healthy pc _ hf1']
  simp only []
  rw [e1, version_ensure]
  have hf2' : ((c.ensure (HashKey pc [pc.Scope])).ensure (primaryKey pc c.version p)).faults
      = [] := hf2
  rw [getVersionedKey_of_healthy pc _ hf2']
  simp only []
  have e2 : HashKey pc [ConcatKeys pc
      [VersionedKey pc (primaryKey pc c.version p) (c.version (primaryKey pc c.version p)), s]]
      = secondaryKey pc c.version p s := rfl
  rw [e2, version_ensure, version_ensure]
  rfl

/-- The physical key depends on the versions of 64-byte keys only. -/
theorem physicalKey_congr (pc : PC) {ver ver2 : Bytes → Nat}
    (h : ∀ x : Bytes, x.length = 64 → ver2 x = ver x) (p s k : Bytes) :
    physicalKey pc ver2 p s k = physicalKey pc ver p s k := by
  have h1 : versionedScope pc ver2 = versionedScope pc ver := by
    unfold versionedScope
    rw [h (scopeKey pc) (HashKey_length pc _)]
  have h2 : primaryKey pc ver2 p = primaryKey pc ver p := by
    unfold primaryKey
    rw [h1]
  have h3 : versionedPrimary pc ver2 p = versionedPrimary pc ver p := by
    unfold versionedPrimary
    rw [h2, h (primaryKey pc ver p) (HashKey_length pc _)]
  have h4 : secondaryKey pc ver2 p s = secondaryKey pc ver p s := by
    unfold secondaryKey
    rw [h3]
  have h5 : versionedSecondary pc ver2 p s = versionedSecondary pc ver p s := by
    unfold versionedSecondary
    rw [h4, h (secondaryKey pc ver p s) (HashKey_length pc _)]
  unfold physicalKey
  rw [h5]

/-! ## Decimal numbers -/

theorem parseLoop_append (xs ys : Bytes) (n : Nat) :
    parseLoop (xs ++ ys) n
      = match parseLoop xs n with
        | .ok m => parseLoop ys m
        | .error e => .error e := by
  induction xs generalizing n with
  | nil => rfl
  | cons c cs ih =>
    simp only [List.cons_append, parseLoop]
    split
    · split
      · rfl
      · split
        · rfl
        · exact ih _
    · rfl

theorem digit_val (d : Nat) (hd : d < 10) : (Fin.ofNat (48 + d) : Byte).val = 48 + d := by
  simp only [Fin.ofNat]
  omega

theorem parseLoop_digit (m d : Nat) (hd : d < 10) (hm : m * 10 + d < 2 ^ 64) :
    parseLoop [(Fin.ofNat (48 + d) : Byte)] m = .ok (m * 10 + d) := by
  have hv := digit_val d hd
  have h64 : (2 : Nat) ^ 64 = 18446744073709551616 := by norm_num
  rw [h64] at hm
  simp only [parseLoop, hv, h64]
  rw [if_pos (by omega), if_neg (by omega)]
  simp only [Nat.add_sub_cancel_left]
  rw [if_neg (by omega)]

theorem parseLoop_digitsRev (fuel : Nat) :
    ∀ n : Nat, n < 10 ^ (fuel + 1) → n < 2 ^ 64 →
      parseLoop (digitsRev (fuel + 1) n).reverse 0 = .ok n := by
  have small : ∀ f n : Nat, n < 10 → n < 2 ^ 64 →
      parseLoop (digitsRev (f + 1) n).reverse 0 = .ok n := by
    intro f n hn h2
    simp only [digitsRev, if_pos hn, List.reverse_cons, List.reverse_nil, List.nil_append]
    have hmod : n % 10 = n := Nat.mod_eq_of_lt hn
    have := parseLoop_digit 0 (n % 10) (by omega) (by omega)
    rw [this]
    congr 1
    omega
  induction fuel with
  | zero =>
    intro n h1 h2
    exact small 0 n (by simpa using h1) h2
  | succ fuel ih =>
    intro n h1 h2
    by_cases hn : n < 10
    · exact small _ n hn h2
    · have hq : n / 10 < 10 ^ (fuel + 1) := by
        rw [Nat.div_lt_iff_lt_mul (by norm_num)]
        calc n < 10 ^ (fuel + 1 + 1) := h1
          _ = 10 ^ (fuel + 1) * 10 := by rw [pow_succ]
      have hq2 : n / 10 < 2 ^ 64 := lt_of_le_of_lt (Nat.div_le_self n 10) h2
      rw [digitsRev, if_neg hn, List.reverse_cons, parseLoop_append, ih (n / 10) hq hq2]
      simp only []
      have := parseLoop_digit (n / 10) (n % 10) (Nat.mod_lt _ (by norm_num))
        (by have := Nat.div_add_mod n 10; omega)
      rw [this]
      congr 1
      have := Nat.div_add_mod n 10
      omega

theorem digitsRev_ne_nil (fuel n : Nat) : digitsRev (fuel + 1) n ≠ [] := by
  simp [digitsRev]

/-- A 64-bit number printed in decimal is read back by `ParseUint`. -/
theorem ParseUint_FormatUint (n : Nat) (h : n < 2 ^ 64) : ParseUint (FormatUint n) = .ok n := by
  unfold ParseUint FormatUint
  rw [if_neg (by simpa using digitsRev_ne_nil 19 n)]
  exact parseLoop_digitsRev 19 n (lt_of_lt_of_le h (by norm_num)) h

/-! ## Increments -/

theorem Increment_items_of_ne (c : Client) (key : Bytes) (delta : Nat) {x : Bytes}
    (h : x ≠ key) : (c.Increment key delta).2.items x = c.items x := by
  unfold Client.Increment Client.request
  cases c.faults with
  | nil =>
    simp only []
    split
    · rfl
    · split
      · rfl
      · exact put_items_of_ne _ _ _ h
  | cons f rest =>
    cases f with
    | some e => rfl
    | none =>
      simp only []
      split
      · rfl
      · split
        · rfl
        · exact put_items_of_ne _ _ _ h

theorem Increment_faults_of_healthy {c : Client} (hf : c.faults = []) (key : Bytes)
    (delta : Nat) : (c.Increment key delta).2.faults = [] := by
  unfold Client.Increment
  rw [request_of_healthy hf]
  simp only []
  split
  · exact hf
  · split
    · exact hf
    · exact hf

theorem Increment_counter {c : Client} (hf : c.faults = []) {key : Bytes} {n : Nat}
    (hn : c.counter key = some n) (delta : Nat) :
    (c.Increment key delta).2.counter key = some ((n + delta) % 2 ^ 64) := by
  unfold Client.Increment
  rw [request_of_healthy hf]
  unfold Client.counter at hn
  cases hit : c.items key with
  | none => simp [hit] at hn
  | some it =>
    cases hp : ParseUint it.Value with
    | error e => simp [hit, hp] at hn
    | ok m =>
      have hm : m = n := by simpa [hit, hp] using hn
      subst hm
      simp only [hit, hp, Client.counter, Client.put, if_true]
      rw [ParseUint_FormatUint _ (Nat.mod_lt _ (by norm_num))]

theorem separator_length : separator.length = 1 := by decide

theorem ConcatKeys_pair_length (pc : PC) (a b : Bytes) :
    (ConcatKeys pc [a, b]).length = a.length + 1 + b.length := by
  simp [ConcatKeys, Join, separator_length]
  omega

/-- The scope counter after `invalidateScope`, and the rest of the store. -/
theorem invalidateScope_step (pc : PC) {c : Client} (hf : c.faults = []) {n : Nat}
    (hn : c.counter (HashKey pc [pc.Scope]) = some n) (hlt : n + 1 < 2 ^ 64) :
    (invalidateScope pc c).faults = [] ∧
    (invalidateScope pc c).counter (HashKey pc [pc.Scope]) = some (n + 1) ∧
    ∀ x : Bytes, x ≠ HashKey pc [pc.Scope] → (invalidateScope pc c).items x = c.items x := by
  refine ⟨Increment_faults_of_healthy hf _ _, ?_, fun x hx => Increment_items_of_ne c _ _ hx⟩
  have := Increment_counter hf hn 1
  rw [Nat.mod_eq_of_lt hlt] at this
  exact this

theorem invalidateScope_iterate (pc : PC) (j : Nat) :
    ∀ (c : Client) (n : Nat), c.faults = [] → c.counter (HashKey pc [pc.Scope]) = some n →
      n + j < 2 ^ 64 →
      (Nat.iterate (invalidateScope pc) j c).counter (HashKey pc [pc.Scope]) = some (n + j) ∧
      ∀ x : Bytes, x ≠ HashKey pc [pc.Scope] →
        (Nat.iterate (invalidateScope pc) j c).items x = c.items x := by
  induction j with
  | zero => intro c n _ hn _; exact ⟨hn, fun _ _ => rfl⟩
  | succ j ih =>
    intro c n hf hn hlt
    obtain ⟨hf1, hn1, hfr⟩ := invalidateScope_step pc hf hn (by omega)
    obtain ⟨h1, h2⟩ := ih (invalidateScope pc c) (n + 1) hf1 hn1 (by omega)
    rw [Function.iterate_succ_apply]
    refine ⟨by rw [h1]; congr 1; omega, fun x hx => ?_⟩
    rw [h2 x hx, hfr x hx]

/-- The store `invalidatePrimary` leaves when no request fails: the increment
goes to the unhashed concatenation. -/
theorem invalidatePrimary_of_healthy (pc : PC) (p : Bytes) {c : Client} (hf : c.faults = []) :
    invalidatePrimary pc p c
      = invalidateKey pc (ConcatKeys pc [versionedScope pc c.version, p])
          (c.ensure (scopeKey pc)) := by
  unfold invalidatePrimary
  rw [getVersionedKey_of_healthy pc _ hf]
  rfl

/-- The store `invalidateSecondary` leaves when no request fails. -/
theorem invalidateSecondary_of_healthy (pc : PC) (p s : Bytes) {c : Client}
    (hf : c.faults = []) :
    invalidateSecondary pc p s c
      = invalidateKey pc (ConcatKeys pc [versionedPrimary pc c.version p, s])
          ((c.ensure (scopeKey pc)).ensure (primaryKey pc c.version p)) := by
  have hf1 : (c.ensure (HashKey pc [pc.Scope])).faults = [] := by rw [ensure_faults, hf]
  unfold invalidateSecondary
  rw [getVersionedKey_of_healthy pc _ hf]
  simp only []
  rw [getVersionedKey_of_healthy pc _ hf1]
  simp only []
  rw [version_ensure]
  rfl

/-- An increment of a key that is not 64 bytes long changes no version of a
64-byte key. -/
theorem version_invalidateKey_of_length (pc : PC) (c : Client) {key : Bytes}
    (hk : key.length ≠ 64) {x : Bytes} (hx : x.length = 64) :
    (invalidateKey pc key c).version x = c.version x := by
  have hne : x ≠ key := by
    intro h
    rw [h] at hx
    exact hk hx
  unfold Client.version invalidateKey
  rw [counter_of_items_eq (Increment_items_of_ne c key 1 hne)]

/-- No counter that key resolution reads changes its version under
`invalidatePrimary`. -/
theorem version_invalidatePrimary (pc : PC) (p : Bytes) {c : Client} (hf : c.faults = [])
    {x : Bytes} (hx : x.length = 64) :
    (invalidatePrimary pc p c).version x = c.version x ∧
    (invalidatePrimary pc p c).faults = [] := by
  rw [invalidatePrimary_of_healthy pc p hf]
  constructor
  · rw [version_invalidateKey_of_length pc _ _ hx, version_ensure]
    rw [ConcatKeys_pair_length, versionedScope, VersionedKey_length]
    omega
  · exact Increment_faults_of_healthy (by rw [ensure_faults, hf]) _ _

/-- No counter that key resolution reads changes its version under
`invalidateSecondary`. -/
theorem version_invalidateSecondary (pc : PC) (p s : Bytes) {c : Client} (hf : c.faults = [])
    {x : Bytes} (hx : x.length = 64) :
    (invalidateSecondary pc p s c).version x = c.version x ∧
    (invalidateSecondary pc p s c).faults = [] := by
  rw [invalidateSecondary_of_healthy pc p s hf]
  constructor
  · rw [version_invalidateKey_of_length pc _ _ hx, version_ensure, version_ensure]
    rw [ConcatKeys_pair_length, versionedPrimary, VersionedKey_length]
    omega
  · exact Increment_faults_of_healthy (by rw [ensure_faults, ensure_faults, hf]) _ _

/-- The physical key after `invalidateSecondary` is the one before it. -/
theorem getSPSK_invalidateSecondary (pc : PC) (p s : Bytes) {c : Client} (hf : c.faults = [])
    (p' s' k : Bytes) :
    (getSPSK pc p' s' k c).1 = .ok (physicalKey pc c.version p' s' k) ∧
    (getSPSK pc p' s' k (invalidateSecondary pc p s c)).1
      = .ok (physicalKey pc c.version p' s' k) := by
  have hf2 := fun x (hx : List.length x = 64) => (version_invalidateSecondary pc p s hf hx).2
  have hv : ∀ x : Bytes, x.length = 64 →
      (invalidateSecondary pc p s c).version x = c.version x :=
    fun x hx => (version_invalidateSecondary pc p s hf hx).1
  have hf3 : (invalidateSecondary pc p s c).faults = [] := hf2 (scopeKey pc) (HashKey_length _ _)
  rw [getSPSK_of_healthy pc p' s' k hf, getSPSK_of_healthy pc p' s' k hf3,
    physicalKey_congr pc hv]
  exact ⟨rfl, rfl⟩

/-! ## The invalidators -/

/-- C1, evaluated on the store `primaryAtFive` (scope `"UnitTests"`, scope
counter 1, counter of `"Pri"` at 5): the counter that key resolution reads for
the primary level, at `HashKey(ConcatKeys(vScope, "Pri"))`, holds 5 before
`invalidatePrimary("Pri")` and still 5 after it, not 6; the increment was sent
to the unhashed key `ConcatKeys(vScope, "Pri")`, where it is a cache miss, and
a following resolution is computed from version 5. -/
theorem invalidatePrimary_misses_hashed_counter :
    primaryAtFive.counter (HashKey unitTests [unitTests.Scope]) = some 1 ∧
    (getVersionedKey unitTests unitTests.Scope primaryAtFive).1 = .ok scopeV1 ∧
    primaryAtFive.counter priKey = some 5 ∧
    (invalidatePrimary unitTests (str "Pri") primaryAtFive).counter priKey = some 5 ∧
    (primaryAtFive.Increment (ConcatKeys unitTests [scopeV1, str "Pri"]) 1).1
      = .error .ErrCacheMiss ∧
    (getVersionedKey unitTests (ConcatKeys unitTests [scopeV1, str "Pri"])
        (invalidatePrimary unitTests (str "Pri") primaryAtFive)).1
      = .ok (VersionedKey unitTests priKey 5) := by
  decide!

/-- C2, evaluated on the store `secondaryAtFive` (scope `"UnitTests"`, scope
and primary counters 1, counter of `"Sec"` under `"Pri"` at 5): the
secondary-level counter at `HashKey(ConcatKeys(vPrimary, "Sec"))` holds 5
before `invalidateSecondary("Pri", "Sec")` and still 5 after it, not 6, and
`getSPSK("Pri", "Sec", "Key")` returns the same physical key after the call as
before it. -/
theorem invalidateSecondary_misses_hashed_counter :
    secondaryAtFive.counter (HashKey unitTests [unitTests.Scope]) = some 1 ∧
    secondaryAtFive.counter priKey = some 1 ∧
    secondaryAtFive.counter secKey = some 5 ∧
    (invalidateSecondary unitTests (str "Pri") (str "Sec") secondaryAtFive).counter secKey
      = some 5 ∧
    (secondaryAtFive.Increment (ConcatKeys unitTests [priV1, str "Sec"]) 1).1
      = .error .ErrCacheMiss ∧
    (getSPSK unitTests (str "Pri") (str "Sec") (str "Key") secondaryAtFive).1
      = .ok (HashKey unitTests [VersionedKey unitTests secKey 5, str "Key"]) ∧
    (getSPSK unitTests (str "Pri") (str "Sec") (str "Key")
        (invalidateSecondary unitTests (str "Pri") (str "Sec") secondaryAtFive)).1
      = .ok (HashKey unitTests [VersionedKey unitTests secKey 5, str "Key"]) := by
  decide!

/-- C3: on a store whose requests do not fail, `invalidateSecondary(p, s)`
leaves the physical key of every sibling context `(p, s')`, `s' ≠ s`, and of
every context `(p', s'')` under another primary `p' ≠ p`, as it was: `getSPSK`
returns the same key after the invalidation as it would have before. -/
theorem invalidateSecondary_frame (pc : PC) (p s : Bytes) (c : Client) (hf : c.faults = [])
    (s' p' s'' k : Bytes) (_hs : s' ≠ s) (_hp : p' ≠ p) :
    (∃ key : Bytes, (getSPSK pc p s' k c).1 = .ok key ∧
      (getSPSK pc p s' k (invalidateSecondary pc p s c)).1 = .ok key) ∧
    (∃ key : Bytes, (getSPSK pc p' s'' k c).1 = .ok key ∧
      (getSPSK pc p' s'' k (invalidateSecondary pc p s c)).1 = .ok key) :=
  ⟨⟨_, getSPSK_invalidateSecondary pc p s hf p s' k⟩,
   ⟨_, getSPSK_invalidateSecondary pc p s hf p' s'' k⟩⟩

theorem invalidateSecondary_frame_witness :
    Client.empty.faults = [] ∧ str "Other" ≠ str "Sec" ∧ str "Pri2" ≠ str "Pri" ∧
    (∃ key : Bytes,
      (getSPSK unitTests (str "Pri") (str "Other") (str "Key") Client.empty).1 = .ok key ∧
      (getSPSK unitTests (str "Pri") (str "Other") (str "Key")
        (invalidateSecondary unitTests (str "Pri") (str "Sec") Client.empty)).1 = .ok key) ∧
    (∃ key : Bytes,
      (getSPSK unitTests (str "Pri2") (str "Sec") (str "Key") Client.empty).1 = .ok key ∧
      (getSPSK unitTests (str "Pri2") (str "Sec") (str "Key")
        (invalidateSecondary unitTests (str "Pri") (str "Sec") Client.empty)).1 = .ok key) :=
  ⟨rfl, by decide, by decide,
   invalidateSecondary_frame unitTests (str "Pri") (str "Sec") Client.empty rfl
     (str "Other") (str "Pri2") (str "Sec") (str "Key") (by decide) (by decide)⟩

/-- C4: on a store whose requests do not fail and whose entry at
`HashKey(Scope)` holds the decimal number `n`, `invalidateScope()` leaves
`n + 1` there when `n < 2^64 - 1` and changes no other entry; `j` successive
calls leave `n + j` (as long as that stays below `2^64`), which is never less
than `n`, and change no other entry. -/
theorem invalidateScope_increments (pc : PC) (c : Client) (n : Nat) (hf : c.faults = [])
    (hn : c.counter (HashKey pc [pc.Scope]) = some n) :
    (n < 2 ^ 64 - 1 →
      (invalidateScope pc c).counter (HashKey pc [pc.Scope]) = some (n + 1) ∧
      ∀ x : Bytes, x ≠ HashKey pc [pc.Scope] → (invalidateScope pc c).items x = c.items x) ∧
    (∀ j : Nat, n + j < 2 ^ 64 →
      (Nat.iterate (invalidateScope pc) j c).counter (HashKey pc [pc.Scope]) = some (n + j) ∧
      n ≤ n + j ∧
      ∀ x : Bytes, x ≠ HashKey pc [pc.Scope] →
        (Nat.iterate (invalidateScope pc) j c).items x = c.items x) := by
  constructor
  · intro hlt
    have h64 : (2 : Nat) ^ 64 = 18446744073709551616 := by norm_num
    exact (invalidateScope_step pc hf hn (by omega)).2
  · intro j hj
    obtain ⟨h1, h2⟩ := invalidateScope_iterate pc j c n hf hn hj
    exact ⟨h1, Nat.le_add_right n j, h2⟩

theorem invalidateScope_increments_witness :
    primaryAtFive.faults = [] ∧
    primaryAtFive.counter (HashKey unitTests [unitTests.Scope]) = some 1 ∧
    (1 < 2 ^ 64 - 1 →
      (invalidateScope unitTests primaryAtFive).counter (HashKey unitTests [unitTests.Scope])
        = some (1 + 1) ∧
      ∀ x : Bytes, x ≠ HashKey unitTests [unitTests.Scope] →
        (invalidateScope unitTests primaryAtFive).items x = primaryAtFive.items x) ∧
    (∀ j : Nat, 1 + j < 2 ^ 64 →
      (Nat.iterate (invalidateScope unitTests) j primaryAtFive).counter
        (HashKey unitTests [unitTests.Scope]) = some (1 + j) ∧
      1 ≤ 1 + j ∧
      ∀ x : Bytes, x ≠ HashKey unitTests [unitTests.Scope] →
        (Nat.iterate (invalidateScope unitTests) j primaryAtFive).items x
          = primaryAtFive.items x) :=
  ⟨rfl, by decide!, invalidateScope_increments unitTests primaryAtFive 1 rfl (by decide!)⟩

/-- C5, evaluated on the store `barAtFiveReadFails` (counter of `"Bar"` at 5,
the next request failing with an error that is not a cache miss): the read in
`getKeyVersion` fails with that error, yet `getVersionedKey("Bar")` returns no
error but the key of version 1, and the counter that held 5 has been
overwritten with 1. -/
theorem getVersionedKey_swallows_read_failure :
    barAtFiveReadFails.counter (HashKey unitTests [str "Bar"]) = some 5 ∧
    (barAtFiveReadFails.Get (HashKey unitTests [str "Bar"])).1 = .error (.ErrStore 1) ∧
    (getKeyVersion unitTests (HashKey unitTests [str "Bar"]) barAtFiveReadFails).1
      = .error (.ErrStore 1) ∧
    (getVersionedKey unitTests (str "Bar") barAtFiveReadFails).1
      = .ok (VersionedKey unitTests (HashKey unitTests [str "Bar"]) 1) ∧
    (getVersionedKey unitTests (str "Bar") barAtFiveReadFails).2.counter
      (HashKey unitTests [str "Bar"]) = some 1 := by
  decide!

/-! ## Key resolution -/

theorem counter_eq_none_of_absent_or_corrupt {c : Client} {key : Bytes}
    (h : c.items key = none ∨
      ∃ e : Entry, c.items key = some e ∧ ∀ n : Nat, ParseUint e.Value ≠ .ok n) :
    c.counter key = none := by
  unfold Client.counter
  rcases h with h | ⟨e, he, hp⟩
  · simp [h]
  · rw [he]
    cases hv : ParseUint e.Value with
    | ok n => exact absurd hv (hp n)
    | error err => simp [hv]

theorem FormatUint_one : FormatUint 1 = str "1" := by decide

/-- C6: on a store whose requests do not fail, for every raw key whose entry at
`HashKey(rawKey)` is absent, or present but not a base-10 unsigned 64-bit
integer, `getVersionedKey(rawKey)` returns without error the digest
`HashKey(HashKey(rawKey) ++ "|" ++ "1")` and leaves the value `"1"` stored at
`HashKey(rawKey)`; with no counter stored, `getVersionedKey("Bar")` is
`f7a61c3b…9061`. -/
theorem getVersionedKey_fresh (pc : PC) (rawKey : Bytes) (c : Client) (hf : c.faults = [])
    (h : c.items (HashKey pc [rawKey]) = none ∨
      ∃ e : Entry, c.items (HashKey pc [rawKey]) = some e ∧
        ∀ n : Nat, ParseUint e.Value ≠ .ok n) :
    (getVersionedKey pc rawKey c).1
      = .ok (HashKey pc [HashKey pc [rawKey] ++ str "|" ++ str "1"]) ∧
    (getVersionedKey pc rawKey c).2.items (HashKey pc [rawKey])
      = some { Value := str "1", Flags := 0, Expiration := 0 } ∧
    (getVersionedKey unitTests (str "Bar") Client.empty).1
      = .ok (str "f7a61c3b31b472f5563aeb62b638041ddd8128031354f6060a6c3dedb65a9061") := by
  have hc := counter_eq_none_of_absent_or_corrupt h
  rw [getVersionedKey_of_healthy pc rawKey hf]
  refine ⟨?_, ?_, by decide!⟩
  · simp only [Client.version, hc, Option.getD_none, VersionedKey, FormatUint_one]
    rfl
  · simp only [Client.ensure, hc]
    exact put_items_self _ _ _

theorem getVersionedKey_fresh_witness :
    barCorrupt.faults = [] ∧
    (barCorrupt.items (HashKey unitTests [str "Bar"]) = none ∨
      ∃ e : Entry, barCorrupt.items (HashKey unitTests [str "Bar"]) = some e ∧
        ∀ n : Nat, ParseUint e.Value ≠ .ok n) ∧
    (getVersionedKey unitTests (str "Bar") barCorrupt).1
      = .ok (HashKey unitTests [HashKey unitTests [str "Bar"] ++ str "|" ++ str "1"]) ∧
    (getVersionedKey unitTests (str "Bar") barCorrupt).2.items (HashKey unitTests [str "Bar"])
      = some { Value := str "1", Flags := 0, Expiration := 0 } ∧
    (getVersionedKey unitTests (str "Bar") Client.empty).1
      = .ok (str "f7a61c3b31b472f5563aeb62b638041ddd8128031354f6060a6c3dedb65a9061") :=
  have hw : barCorrupt.items (HashKey unitTests [str "Bar"]) = none ∨
      ∃ e : Entry, barCorrupt.items (HashKey unitTests [str "Bar"]) = some e ∧
        ∀ n : Nat, ParseUint e.Value ≠ .ok n :=
    Or.inr ⟨counterEntry (str "x7"), put_items_self _ _ _, fun n hn => by
      have hx : ParseUint (counterEntry (str "x7")).Value = .error .ErrSyntax := by decide
      rw [hx] at hn
      cases hn⟩
  ⟨rfl, hw, getVersionedKey_fresh unitTests (str "Bar") barCorrupt rfl hw⟩

theorem Get_items (c : Client) (key : Bytes) : (c.Get key).2.items = c.items := by
  unfold Client.Get Client.request
  cases c.faults with
  | nil => simp only []; split <;> rfl
  | cons f rest =>
    cases f with
    | some e => rfl
    | none => simp only []; split <;> rfl

theorem Set_items_of_ne (c : Client) (it : Item) {x : Bytes} (h : x ≠ it.Key) :
    (c.Set it).2.items x = c.items x := by
  unfold Client.Set Client.request
  cases c.faults with
  | nil => exact store_items_of_ne _ _ _ h
  | cons f rest =>
    cases f with
    | some e => rfl
    | none => exact store_items_of_ne _ _ _ h

theorem initCounter_items_of_ne (pc : PC) (c : Client) (key : Bytes) {x : Bytes}
    (h : x ≠ key) : (initCounter pc key c).2.items x = c.items x := by
  have := Set_items_of_ne c { Key := key, Value := str "1", Flags := 0, Expiration := 0 } h
  unfold initCounter
  split
  · rename_i heq; rw [heq] at this; exact this
  · rename_i heq; rw [heq] at this; exact this

theorem getKeyVersion_items_of_ne (pc : PC) (c : Client) (key : Bytes) {x : Bytes}
    (h : x ≠ key) : (getKeyVersion pc key c).2.items x = c.items x := by
  have hg := Get_items c key
  unfold getKeyVersion
  split
  · rename_i err c1 heq
    rw [heq] at hg
    split
    · rw [initCounter_items_of_ne pc c1 key h]; exact congrFun hg x
    · exact congrFun hg x
  · rename_i result c1 heq
    rw [heq] at hg
    exact congrFun hg x

/-- A resolution writes nowhere but at the counter of its raw key, whatever
the requests do. -/
theorem getVersionedKey_items_of_ne (pc : PC) (c : Client) (key : Bytes) {x : Bytes}
    (h : x ≠ HashKey pc [key]) : (getVersionedKey pc key c).2.items x = c.items x := by
  have hk := getKeyVersion_items_of_ne pc c (HashKey pc [key]) h
  unfold getVersionedKey
  simp only []
  split
  · rename_i e c1 heq
    rw [heq] at hk
    have hi := initCounter_items_of_ne pc c1 (HashKey pc [key]) h
    split
    · rename_i err c2 heq2; rw [heq2] at hi; exact hi.trans hk
    · rename_i n c2 heq2; rw [heq2] at hi; exact hi.trans hk
  · rename_i n c1 heq
    rw [heq] at hk
    exact hk

theorem getVersionedKey_of_counter_none (pc : PC) (key : Bytes) {c : Client}
    (hf : c.faults = []) (hc : c.counter (HashKey pc [key]) = none) :
    getVersionedKey pc key c
      = (.ok (VersionedKey pc (HashKey pc [key]) 1),
         c.put (HashKey pc [key]) (counterEntry (str "1"))) := by
  rw [getVersionedKey_of_healthy pc key hf]
  simp only [Client.version, Client.ensure, hc, Option.getD_none]
  rfl

theorem resolve_scope_empty :
    getVersionedKey unitTests unitTests.Scope Client.empty = (.ok scopeV1, scopeAtOne) :=
  getVersionedKey_of_counter_none unitTests unitTests.Scope rfl rfl

theorem resolve_primary_fresh :
    getVersionedKey unitTests (ConcatKeys unitTests [scopeV1, str "Pri"]) scopeAtOne
      = (.ok priV1, primaryAtOne) :=
  getVersionedKey_of_counter_none unitTests _ rfl (by decide!)

theorem resolve_secondary_fresh :
    getVersionedKey unitTests (ConcatKeys unitTests [priV1, str "Sec"]) primaryAtOne
      = (.ok secV1, secondaryAtOne) :=
  getVersionedKey_of_counter_none unitTests _ rfl (by decide!)

/-- C7: `getSPSK` is the left fold of versioned resolution over scope, primary
and secondary, followed by a plain hash of the leaf key.  Whenever the three
resolutions succeed, in sequence, with `vScope`, `vPri` and `vSec`,
`getSPSK(p, s, k)` returns `HashKey(vSec, k)` and the store of the third
resolution, and no entry changed but the counters of the three levels: the
leaf key has none.  On a store whose requests do not fail the three
resolutions do succeed.  With scope `"UnitTests"` and no counters stored,
`getSPSK("Pri", "Sec", "Key")` is `be43d330…22df`. -/
theorem getSPSK_fold (pc : PC) (p s k : Bytes) (c : Client) :
    (∀ (vScope vPri vSec : Bytes) (c1 c2 c3 : Client),
      getVersionedKey pc pc.Scope c = (.ok vScope, c1) →
      getVersionedKey pc (ConcatKeys pc [vScope, p]) c1 = (.ok vPri, c2) →
      getVersionedKey pc (ConcatKeys pc [vPri, s]) c2 = (.ok vSec, c3) →
      getSPSK pc p s k c = (.ok (HashKey pc [vSec, k]), c3) ∧
      ∀ x : Bytes, x ≠ HashKey pc [pc.Scope] →
        x ≠ HashKey pc [ConcatKeys pc [vScope, p]] →
        x ≠ HashKey pc [ConcatKeys pc [vPri, s]] → c3.items x = c.items x) ∧
    (c.faults = [] →
      ∃ (vScope vPri vSec : Bytes) (c1 c2 c3 : Client),
        getVersionedKey pc pc.Scope c = (.ok vScope, c1) ∧
        getVersionedKey pc (ConcatKeys pc [vScope, p]) c1 = (.ok vPri, c2) ∧
        getVersionedKey pc (ConcatKeys pc [vPri, s]) c2 = (.ok vSec, c3)) ∧
    (getSPSK unitTests (str "Pri") (str "Sec") (str "Key") Client.empty).1
      = .ok (str "be43d3305e7b93afc886d779fac762553d0406f0b49cb1a2796779636cb222df") := by
  refine ⟨?_, ?_, by decide!⟩
  · intro vScope vPri vSec c1 c2 c3 h1 h2 h3
    constructor
    · unfold getSPSK
      rw [h1]
      simp only []
      rw [h2]
      simp only []
      rw [h3]
    · intro x hx1 hx2 hx3
      have e1 := getVersionedKey_items_of_ne pc c pc.Scope hx1
      have e2 := getVersionedKey_items_of_ne pc c1 (ConcatKeys pc [vScope, p]) hx2
      have e3 := getVersionedKey_items_of_ne pc c2 (ConcatKeys pc [vPri, s]) hx3
      rw [h1] at e1
      rw [h2] at e2
      rw [h3] at e3
      exact e3.trans (e2.trans e1)
  · intro hf
    have hf1 : (c.ensure (HashKey pc [pc.Scope])).faults = [] := by rw [ensure_faults, hf]
    exact ⟨_, _, _, _, _, _, getVersionedKey_of_healthy pc _ hf,
      getVersionedKey_of_healthy pc _ hf1,
      getVersionedKey_of_healthy pc _ (by rw [ensure_faults, hf1])⟩

theorem getSPSK_fold_witness :
    getVersionedKey unitTests unitTests.Scope Client.empty = (.ok scopeV1, scopeAtOne) ∧
    getVersionedKey unitTests (ConcatKeys unitTests [scopeV1, str "Pri"]) scopeAtOne
      = (.ok priV1, primaryAtOne) ∧
    getVersionedKey unitTests (ConcatKeys unitTests [priV1, str "Sec"]) primaryAtOne
      = (.ok secV1, secondaryAtOne) ∧
    getSPSK unitTests (str "Pri") (str "Sec") (str "Key") Client.empty
      = (.ok (HashKey unitTests [secV1, str "Key"]), secondaryAtOne) ∧
    ∀ x : Bytes, x ≠ HashKey unitTests [unitTests.Scope] →
      x ≠ HashKey unitTests [ConcatKeys unitTests [scopeV1, str "Pri"]] →
      x ≠ HashKey unitTests [ConcatKeys unitTests [priV1, str "Sec"]] →
      secondaryAtOne.items x = Client.empty.items x :=
  ⟨resolve_scope_empty, resolve_primary_fresh, resolve_secondary_fresh,
   (getSPSK_fold unitTests (str "Pri") (str "Sec") (str "Key") Client.empty).1
     scopeV1 priV1 secV1 scopeAtOne primaryAtOne secondaryAtOne
     resolve_scope_empty resolve_primary_fresh resolve_secondary_fresh⟩

theorem getSPSK_empty :
    getSPSK unitTests (str "Pri") (str "Sec") (str "Key") Client.empty
      = (.ok (HashKey unitTests [secV1, str "Key"]), secondaryAtOne) := by
  unfold getSPSK
  rw [resolve_scope_empty]
  simp only []
  rw [resolve_primary_fresh]
  simp only []
  rw [resolve_secondary_fresh]

/-- C8: on a store whose requests do not fail, if `getSPSK(p, s, k)` returns the
physical key `key` and leaves the store `c1` (in which it may have created or
repaired counters), then the same call on `c1` returns `key` again and leaves
`c1` unchanged. -/
theorem getSPSK_repeatable (pc : PC) (p s k : Bytes) (c : Client) (hf : c.faults = [])
    (key : Bytes) (c1 : Client) (h : getSPSK pc p s k c = (.ok key, c1)) :
    getSPSK pc p s k c1 = (.ok key, c1) := by
  rw [getSPSK_of_healthy pc p s k hf] at h
  have hkey : key = physicalKey pc c.version p s k := by
    have := congrArg Prod.fst h
    simp only [Except.ok.injEq] at this
    exact this.symm
  have hc1 : c1 = ((c.ensure (scopeKey pc)).ensure (primaryKey pc c.version p)).ensure
      (secondaryKey pc c.version p s) := (congrArg Prod.snd h).symm
  have hf1 : c1.faults = [] := by rw [hc1, ensure_faults, ensure_faults, ensure_faults, hf]
  have hv : c1.version = c.version := by
    funext x
    rw [hc1, version_ensure, version_ensure, version_ensure]
  have n1 : c1.counter (scopeKey pc) = some (c.version (scopeKey pc)) := by
    rw [hc1]
    exact counter_ensure_of_counter _ (counter_ensure_of_counter _ (counter_ensure_self c _))
  have n2 : c1.counter (primaryKey pc c.version p)
      = some (c.version (primaryKey pc c.version p)) := by
    rw [hc1]
    have := counter_ensure_self (c.ensure (scopeKey pc)) (primaryKey pc c.version p)
    rw [version_ensure] at this
    exact counter_ensure_of_counter _ this
  have n3 : c1.counter (secondaryKey pc c.version p s)
      = some (c.version (secondaryKey pc c.version p s)) := by
    rw [hc1]
    have := counter_ensure_self ((c.ensure (scopeKey pc)).ensure (primaryKey pc c.version p))
      (secondaryKey pc c.version p s)
    rw [version_ensure, version_ensure] at this
    exact this
  rw [getSPSK_of_healthy pc p s k hf1, hv, ensure_of_counter n1, ensure_of_counter n2,
    ensure_of_counter n3, hkey]

theorem getSPSK_repeatable_witness :
    Client.empty.faults = [] ∧
    getSPSK unitTests (str "Pri") (str "Sec") (str "Key") Client.empty
      = (.ok (HashKey unitTests [secV1, str "Key"]), secondaryAtOne) ∧
    getSPSK unitTests (str "Pri") (str "Sec") (str "Key") secondaryAtOne
      = (.ok (HashKey unitTests [secV1, str "Key"]), secondaryAtOne) :=
  ⟨rfl, getSPSK_empty,
   getSPSK_repeatable unitTests (str "Pri") (str "Sec") (str "Key") Client.empty rfl
     (HashKey unitTests [secV1, str "Key"]) secondaryAtOne getSPSK_empty⟩

/-! ## The hasher -/

theorem hextable_digits :
    ∀ v : Byte,
      hextable.getD (v.val >>> 4) 0 = lowerHexDigit (v.val / 16) ∧
      hextable.getD (v.val &&& 0x0f) 0 = lowerHexDigit (v.val % 16) ∧
      hextable.getD (v.val >>> 4) 0 ∈ str "0123456789abcdef" ∧
      hextable.getD (v.val &&& 0x0f) 0 ∈ str "0123456789abcdef" := by
  decide!

theorem hexEncodeToString_eq_lowerHex (b : Bytes) : hexEncodeToString b = lowerHex b := by
  induction b with
  | nil => rfl
  | cons v rest ih =>
    obtain ⟨h1, h2, _, _⟩ := hextable_digits v
    simp only [hexEncodeToString, lowerHex, List.flatMap_cons, List.cons_append,
      List.nil_append, h1, h2]
    rw [ih]
    rfl

theorem hexEncodeToString_mem (b : Bytes) :
    ∀ ch ∈ hexEncodeToString b, ch ∈ str "0123456789abcdef" := by
  induction b with
  | nil => intro ch h; simp [hexEncodeToString] at h
  | cons v rest ih =>
    obtain ⟨_, _, h3, h4⟩ := hextable_digits v
    intro ch h
    simp only [hexEncodeToString, List.mem_cons] at h
    rcases h with h | h | h
    · rw [h]; exact h3
    · rw [h]; exact h4
    · exact ih ch h

/-- C9: for every list of strings, whatever the scope, `HashKey(parts)` is the
lowercase hexadecimal encoding of the SHA-256 digest of the parts joined with
`"|"`; it has exactly 64 characters, each one of `0-9a-f`; and `HashKey("Foo")`
is `1cbec737…8afa`. -/
theorem HashKey_hex_sha256 (pc : PC) (parts : List Bytes) :
    HashKey pc parts = lowerHex (SHA256.Sum256 (Join parts (str "|"))) ∧
    (HashKey pc parts).length = 64 ∧
    (∀ ch ∈ HashKey pc parts, ch ∈ str "0123456789abcdef") ∧
    HashKey pc [str "Foo"]
      = str "1cbec737f863e4922cee63cc2ebbfaafcd1cff8b790d8cfd2e6a5d550b648afa" := by
  have golden : HashKey unitTests [str "Foo"]
      = str "1cbec737f863e4922cee63cc2ebbfaafcd1cff8b790d8cfd2e6a5d550b648afa" := by decide!
  refine ⟨?_, HashKey_length pc parts, ?_, golden⟩
  · unfold HashKey
    exact hexEncodeToString_eq_lowerHex _
  · unfold HashKey
    exact hexEncodeToString_mem _

/-! ## Set and Get -/

/-- The chain of a physical key depends on the versions of its three counters
only. -/
theorem physicalKey_congr_chain (pc : PC) {ver ver2 : Bytes → Nat} (p s k : Bytes)
    (h1 : ver2 (scopeKey pc) = ver (scopeKey pc))
    (h2 : ver2 (primaryKey pc ver p) = ver (primaryKey pc ver p))
    (h3 : ver2 (secondaryKey pc ver p s) = ver (secondaryKey pc ver p s)) :
    primaryKey pc ver2 p = primaryKey pc ver p ∧
    secondaryKey pc ver2 p s = secondaryKey pc ver p s ∧
    physicalKey pc ver2 p s k = physicalKey pc ver p s k := by
  have e1 : versionedScope pc ver2 = versionedScope pc ver := by
    unfold versionedScope
    rw [h1]
  have e2 : primaryKey pc ver2 p = primaryKey pc ver p := by
    unfold primaryKey
    rw [e1]
  have e3 : versionedPrimary pc ver2 p = versionedPrimary pc ver p := by
    unfold versionedPrimary
    rw [e2, h2]
  have e4 : secondaryKey pc ver2 p s = secondaryKey pc ver p s := by
    unfold secondaryKey
    rw [e3]
  have e5 : versionedSecondary pc ver2 p s = versionedSecondary pc ver p s := by
    unfold versionedSecondary
    rw [e4, h3]
  refine ⟨e2, e4, ?_⟩
  unfold physicalKey
  rw [e5]

/-- The stored value and flag decode to the message. -/
theorem decode_encode {Msg : Type} (cd : Codec Msg)
    (hm : ∀ (v : Msg) (b : Bytes) (r : Msg), cd.Marshal v = .ok b → cd.Unmarshal b r = (none, v))
    (hz : ∀ b z : Bytes, cd.gzipWrite b = .ok z → cd.gzipRead z = .ok b)
    {m : Msg} {b : Bytes} (hb : cd.Marshal m = .ok b) (out : Msg) :
    (if (encode cd b).2 > 0 then
        match uncompressBytes cd (encode cd b).1 with
        | .error err => (some err, out)
        | .ok value => cd.Unmarshal value out
      else cd.Unmarshal (encode cd b).1 out) = (none, m) := by
  unfold encode compressBytes uncompressBytes
  by_cases hl : b.length ≥ 1000
  · simp only [if_pos hl]
    cases hw : cd.gzipWrite b with
    | ok z =>
      simp only [Nat.lt_irrefl, Nat.zero_lt_one, if_true, hz b z hw]
      exact hm m b out hb
    | error e =>
      simp only [Nat.lt_irrefl, if_false]
      exact hm m b out hb
  · simp only [if_neg hl, Nat.lt_irrefl, if_false]
    exact hm m b out hb

theorem counter_put_of_ne (c : Client) (key : Bytes) (e : Entry) {x : Bytes} (h : x ≠ key) :
    (c.put key e).counter x = c.counter x :=
  counter_of_items_eq (put_items_of_ne c key e h)

theorem encode_small {Msg : Type} (cd : Codec Msg) {b : Bytes} (h : b.length < 1000) :
    encode cd b = (b, 0) := by
  unfold encode
  rw [if_neg (by omega)]

theorem encode_large {Msg : Type} (cd : Codec Msg) {b z : Bytes} (h : 1000 ≤ b.length)
    (hz : cd.gzipWrite b = .ok z) : encode cd b = (z, 1) := by
  unfold encode compressBytes
  rw [if_pos h, hz]

theorem encode_failed {Msg : Type} (cd : Codec Msg) {b : Bytes} {e : Error}
    (hz : cd.gzipWrite b = .error e) : encode cd b = (b, 0) := by
  unfold encode compressBytes
  rw [hz]
  split <;> rfl

/-- The store key resolution leaves when no request fails. -/
theorem getSPSK_store_of_healthy (pc : PC) (p s k : Bytes) {c : Client} (hf : c.faults = []) :
    (getSPSK pc p s k c).2
      = ((c.ensure (scopeKey pc)).ensure (primaryKey pc c.version p)).ensure
          (secondaryKey pc c.version p s) := by
  rw [getSPSK_of_healthy pc p s k hf]

theorem ensure_now (c : Client) (key : Bytes) : (c.ensure key).now = c.now := by
  unfold Client.ensure
  split <;> rfl

theorem store_of_live {c : Client} {e : Entry} (key : Bytes)
    (h : expiredAtOnce c.now e.Expiration = false) : c.store key e = c.put key e := by
  simp [Client.store, h]

theorem getSPSK_now (pc : PC) (p s k : Bytes) {c : Client} (hf : c.faults = []) :
    (getSPSK pc p s k c).2.now = c.now := by
  rw [getSPSK_store_of_healthy pc p s k hf, ensure_now, ensure_now, ensure_now]

theorem getSPSK_faults (pc : PC) (p s k : Bytes) {c : Client} (hf : c.faults = []) :
    (getSPSK pc p s k c).2.faults = [] := by
  rw [getSPSK_store_of_healthy pc p s k hf, ensure_faults, ensure_faults, ensure_faults, hf]

/-- What `Set` does once the key is resolved and the message serialized: an
item over `TOO_BIG` is not written and the logger's value is returned; any
other item is handed to the store, whose outcome is the outcome of `Set`. -/
theorem Set_of_resolved {Msg : Type} (pc : PC) (cd : Codec Msg) (p s k : Bytes) (m : Msg)
    (expiration : Int) {c c1 : Client} {encodedKey b : Bytes}
    (hres : getSPSK pc p s k c = (.ok encodedKey, c1)) (hb : cd.Marshal m = .ok b) :
    Set pc cd p s k m expiration c
      = if (encode cd b).1.length > TOO_BIG then
          (pc.Logger.Error (encode cd b).1.length p s k, c1)
        else
          match c1.Set (setItem cd encodedKey b expiration) with
          | (.error err, c2) => (some err, c2)
          | (.ok _, c2) => (none, c2) := by
  unfold Set
  rw [hres]
  simp only [hb]
  unfold setItem encode
  by_cases hl : b.length ≥ 1000
  · simp only [if_pos hl]
    cases compressBytes cd b <;> rfl
  · simp only [if_neg hl]

/-- What `Set` does on a store whose requests do not fail, once the message is
serialized. -/
theorem Set_of_healthy {Msg : Type} (pc : PC) (cd : Codec Msg) (p s k : Bytes) (m : Msg)
    (expiration : Int) {c : Client} (hf : c.faults = []) {b : Bytes}
    (hb : cd.Marshal m = .ok b) :
    Set pc cd p s k m expiration c
      = if (encode cd b).1.length > TOO_BIG then
          (pc.Logger.Error (encode cd b).1.length p s k, (getSPSK pc p s k c).2)
        else
          (none,
            (getSPSK pc p s k c).2.store (physicalKey pc c.version p s k)
              { Value := (encode cd b).1, Flags := (encode cd b).2,
                Expiration := int32 (Int.tdiv expiration Second) }) := by
  have hres : getSPSK pc p s k c
      = (.ok (physicalKey pc c.version p s k), (getSPSK pc p s k c).2) := by
    rw [getSPSK_of_healthy pc p s k hf]
  rw [Set_of_resolved pc cd p s k m expiration hres hb]
  unfold Client.Set
  rw [request_of_healthy (getSPSK_faults pc p s k hf)]
  rfl

/-- A message that does not serialize is not written. -/
theorem Set_of_Marshal_error {Msg : Type} (pc : PC) (cd : Codec Msg) (p s k : Bytes) (m : Msg)
    (expiration : Int) {c : Client} (hf : c.faults = []) {e : Error}
    (hb : cd.Marshal m = .error e) :
    Set pc cd p s k m expiration c = (some e, (getSPSK pc p s k c).2) := by
  unfold Set
  rw [getSPSK_of_healthy pc p s k hf]
  simp only [hb]

/-- The store a `Get` reads from, after a key resolution on a store that holds
the three counters of the chain. -/
theorem Get_of_counters {Msg : Type} (pc : PC) (cd : Codec Msg) (p s k : Bytes) (out : Msg)
    {c : Client} (hf : c.faults = []) {n1 n2 n3 : Nat}
    (h1 : c.counter (scopeKey pc) = some n1)
    (h2 : c.counter (primaryKey pc c.version p) = some n2)
    (h3 : c.counter (secondaryKey pc c.version p s) = some n3) {e : Entry}
    (he : c.items (physicalKey pc c.version p s k) = some e) :
    Get pc cd p s k out c
      = if e.Flags > 0 then
          match uncompressBytes cd e.Value with
          | .error err => (some err, out, c)
          | .ok value => ((cd.Unmarshal value out).1, (cd.Unmarshal value out).2, c)
        else ((cd.Unmarshal e.Value out).1, (cd.Unmarshal e.Value out).2, c) := by
  unfold Get
  rw [getSPSK_of_healthy pc p s k hf, ensure_of_counter h1, ensure_of_counter h2,
    ensure_of_counter h3]
  simp only []
  unfold Client.Get
  rw [request_of_healthy hf]
  simp only [he]

theorem frameCodec_Unmarshal (v : Bytes) (b : Bytes) (r : Bytes)
    (h : frameCodec.Marshal v = .ok b) : frameCodec.Unmarshal b r = (none, v) := by
  simp only [frameCodec, Except.ok.injEq] at h
  rw [← h]
  rfl

theorem frameCodec_gzipRead (b z : Bytes) (h : frameCodec.gzipWrite b = .ok z) :
    frameCodec.gzipRead z = .ok b := by
  simp only [frameCodec, Except.ok.injEq] at h
  rw [← h]
  rfl

theorem unitTests_keys_distinct :
    physicalKey unitTests Client.empty.version (str "Pri") (str "Sec") (str "Key")
        ≠ scopeKey unitTests ∧
    physicalKey unitTests Client.empty.version (str "Pri") (str "Sec") (str "Key")
        ≠ primaryKey unitTests Client.empty.version (str "Pri") ∧
    physicalKey unitTests Client.empty.version (str "Pri") (str "Sec") (str "Key")
        ≠ secondaryKey unitTests Client.empty.version (str "Pri") (str "Sec") := by
  decide!

/-- The store a healthy `Set` leaves when the value is within the ceiling and
the expiration has not passed: the one key resolution left, with the payload
entry under the physical key. -/
theorem Set_of_live {Msg : Type} (pc : PC) (cd : Codec Msg) (p s k : Bytes) (m : Msg)
    (expiration : Int) {c : Client} (hf : c.faults = []) {b : Bytes}
    (hb : cd.Marshal m = .ok b) (hsize : (encode cd b).1.length ≤ TOO_BIG)
    (hlive : expiredAtOnce c.now (int32 (Int.tdiv expiration Second)) = false) :
    Set pc cd p s k m expiration c
      = (none,
          (getSPSK pc p s k c).2.put (physicalKey pc c.version p s k)
            { Value := (encode cd b).1, Flags := (encode cd b).2,
              Expiration := int32 (Int.tdiv expiration Second) }) := by
  rw [Set_of_healthy pc cd p s k m expiration hf hb, if_neg (Nat.not_lt.mpr hsize),
    store_of_live]
  rw [getSPSK_now pc p s k hf]
  exact hlive

/-- The three counters of the chain hold numbers in the store key resolution
leaves. -/
theorem getSPSK_counters (pc : PC) (p s k : Bytes) {c : Client} (hf : c.faults = []) :
    (getSPSK pc p s k c).2.counter (scopeKey pc) = some (c.version (scopeKey pc)) ∧
    (getSPSK pc p s k c).2.counter (primaryKey pc c.version p)
      = some (c.version (primaryKey pc c.version p)) ∧
    (getSPSK pc p s k c).2.counter (secondaryKey pc c.version p s)
      = some (c.version (secondaryKey pc c.version p s)) := by
  rw [getSPSK_store_of_healthy pc p s k hf]
  refine ⟨?_, ?_, ?_⟩
  · exact counter_ensure_of_counter _ (counter_ensure_of_counter _ (counter_ensure_self c _))
  · have := counter_ensure_self (c.ensure (scopeKey pc)) (primaryKey pc c.version p)
    rw [version_ensure] at this
    exact counter_ensure_of_counter _ this
  · have := counter_ensure_self
      ((c.ensure (scopeKey pc)).ensure (primaryKey pc c.version p))
      (secondaryKey pc c.version p s)
    rw [version_ensure, version_ensure] at this
    exact this

/-- The round trip through a store that holds the payload entry and the three
counters of the chain. -/
theorem Get_after_put {Msg : Type} (pc : PC) (cd : Codec Msg) (p s k : Bytes) (m out : Msg)
    (expiration : Int) (c : Client) (hf : c.faults = [])
    (hm : ∀ (v : Msg) (b : Bytes) (r : Msg), cd.Marshal v = .ok b → cd.Unmarshal b r = (none, v))
    (hz : ∀ b z : Bytes, cd.gzipWrite b = .ok z → cd.gzipRead z = .ok b)
    (hk : physicalKey pc c.version p s k ≠ scopeKey pc ∧
      physicalKey pc c.version p s k ≠ primaryKey pc c.version p ∧
      physicalKey pc c.version p s k ≠ secondaryKey pc c.version p s)
    {b : Bytes} (hb : cd.Marshal m = .ok b) :
    Get pc cd p s k out
        ((getSPSK pc p s k c).2.put (physicalKey pc c.version p s k)
          { Value := (encode cd b).1, Flags := (encode cd b).2,
            Expiration := int32 (Int.tdiv expiration Second) })
      = (none, m,
          (getSPSK pc p s k c).2.put (physicalKey pc c.version p s k)
            { Value := (encode cd b).1, Flags := (encode cd b).2,
              Expiration := int32 (Int.tdiv expiration Second) }) := by
  obtain ⟨hk1, hk2, hk3⟩ := hk
  obtain ⟨n1, n2, n3⟩ := getSPSK_counters pc p s k hf
  generalize hc2 : (getSPSK pc p s k c).2.put (physicalKey pc c.version p s k)
    { Value := (encode cd b).1, Flags := (encode cd b).2,
      Expiration := int32 (Int.tdiv expiration Second) } = c2
  have hf2 : c2.faults = [] := by rw [← hc2, put_faults, getSPSK_faults pc p s k hf]
  have m1 : c2.counter (scopeKey pc) = some (c.version (scopeKey pc)) := by
    rw [← hc2, counter_put_of_ne _ _ _ (Ne.symm hk1), n1]
  have m2 : c2.counter (primaryKey pc c.version p)
      = some (c.version (primaryKey pc c.version p)) := by
    rw [← hc2, counter_put_of_ne _ _ _ (Ne.symm hk2), n2]
  have m3 : c2.counter (secondaryKey pc c.version p s)
      = some (c.version (secondaryKey pc c.version p s)) := by
    rw [← hc2, counter_put_of_ne _ _ _ (Ne.symm hk3), n3]
  obtain ⟨e2, e4, e5⟩ := physicalKey_congr_chain pc p s k
    (version_of_counter m1) (version_of_counter m2) (version_of_counter m3)
  have hitem : c2.items (physicalKey pc c2.version p s k)
      = some { Value := (encode cd b).1, Flags := (encode cd b).2,
               Expiration := int32 (Int.tdiv expiration Second) } := by
    rw [e5, ← hc2]
    exact put_items_self _ _ _
  rw [← e2] at m2
  rw [← e4] at m3
  rw [Get_of_counters pc cd p s k out hf2 m1 m2 m3 hitem]
  have hdec := decode_encode cd hm hz hb out
  simp only []
  by_cases hfl : (encode cd b).2 > 0
  · rw [if_pos hfl] at hdec ⊢
    cases hu : uncompressBytes cd (encode cd b).1 with
    | error err => rw [hu] at hdec; simp at hdec
    | ok value =>
      rw [hu] at hdec
      simp only [] at hdec ⊢
      rw [hdec]
  · rw [if_neg hfl] at hdec ⊢
    rw [hdec]

/-- C10, evaluated on the empty store with scope `"UnitTests"`, the message
`"hello"` and the expiration of minus one second, with a serializer and a gzip
that their decoders invert and no request failing: `Set` returns no error, and
the `Get` that follows returns the cache miss and leaves `out` as it was,
because the store takes a negative expiration as already past. -/
theorem Get_after_Set_expired :
    (∀ (v b r : Bytes), frameCodec.Marshal v = .ok b → frameCodec.Unmarshal b r = (none, v)) ∧
    (∀ b z : Bytes, frameCodec.gzipWrite b = .ok z → frameCodec.gzipRead z = .ok b) ∧
    Client.empty.faults = [] ∧
    (Set unitTests frameCodec (str "Pri") (str "Sec") (str "Key") (str "hello")
      (-1000000000) Client.empty).1 = none ∧
    (Get unitTests frameCodec (str "Pri") (str "Sec") (str "Key") (str "old")
      (Set unitTests frameCodec (str "Pri") (str "Sec") (str "Key") (str "hello")
        (-1000000000) Client.empty).2).1 = some .ErrCacheMiss ∧
    (Get unitTests frameCodec (str "Pri") (str "Sec") (str "Key") (str "old")
      (Set unitTests frameCodec (str "Pri") (str "Sec") (str "Key") (str "hello")
        (-1000000000) Client.empty).2).2.1 = str "old" :=
  ⟨frameCodec_Unmarshal, frameCodec_gzipRead, rfl, by decide!, by decide!, by decide!⟩

/-- C10 as amended: with a serializer and a gzip that their decoders invert,
on a store whose requests do not fail, for a physical key that is none of the
three counter keys of its own chain and an expiration that the store does not
take as already past, if `Set(p, s, k, m, exp)` returns no error and the value
to be stored is at most `TOO_BIG` bytes, then the `Get(p, s, k, out)` that
follows returns no error and leaves `out = m`.  The entry stored is the
serialization with flag 0 when that is shorter than 1000 bytes, and its gzip
compression with flag 1 when it has 1000 bytes or more and compression
succeeds; the round trip holds in both cases. -/
theorem Set_Get_roundtrip {Msg : Type} (pc : PC) (cd : Codec Msg)
    (p s k : Bytes) (m out : Msg) (expiration : Int) (c : Client)
    (hf : c.faults = [])
    (hm : ∀ (v : Msg) (b : Bytes) (r : Msg), cd.Marshal v = .ok b → cd.Unmarshal b r = (none, v))
    (hz : ∀ b z : Bytes, cd.gzipWrite b = .ok z → cd.gzipRead z = .ok b)
    (hk : physicalKey pc c.version p s k ≠ scopeKey pc ∧
      physicalKey pc c.version p s k ≠ primaryKey pc c.version p ∧
      physicalKey pc c.version p s k ≠ secondaryKey pc c.version p s)
    (hlive : expiredAtOnce c.now (int32 (Int.tdiv expiration Second)) = false)
    (hset : (Set pc cd p s k m expiration c).1 = none)
    (hsize : ∀ b : Bytes, cd.Marshal m = .ok b → (encode cd b).1.length ≤ TOO_BIG) :
    (Get pc cd p s k out (Set pc cd p s k m expiration c).2).1 = none ∧
    (Get pc cd p s k out (Set pc cd p s k m expiration c).2).2.1 = m ∧
    ∃ b : Bytes, cd.Marshal m = .ok b ∧
      (Set pc cd p s k m expiration c).2.items (physicalKey pc c.version p s k)
        = some { Value := (encode cd b).1, Flags := (encode cd b).2,
                 Expiration := int32 (Int.tdiv expiration Second) } ∧
      (b.length < 1000 → encode cd b = (b, 0)) ∧
      (∀ z : Bytes, 1000 ≤ b.length → cd.gzipWrite b = .ok z → encode cd b = (z, 1)) := by
  cases hb : cd.Marshal m with
  | error e =>
    rw [Set_of_Marshal_error pc cd p s k m expiration hf hb] at hset
    simp at hset
  | ok b =>
    rw [Set_of_live pc cd p s k m expiration hf hb (hsize b hb) hlive]
    simp only []
    rw [Get_after_put pc cd p s k m out expiration c hf hm hz hk hb]
    exact ⟨rfl, rfl, b, rfl, put_items_self _ _ _, fun h => encode_small cd h,
      fun z h hw => encode_large cd h hw⟩

theorem noise_length (n : Nat) : ∀ x : Nat, (noise n x).length = n := by
  induction n with
  | zero => intro x; rfl
  | succ n ih => intro x; simp only [noise, List.length_cons, ih]

theorem thousandBytes_length : thousandBytes.length = 1000 := noise_length 1000 1

theorem oversize_length : oversize.length = 204801 := noise_length 204801 1

theorem thousandBytes_encode :
    encode frameCodec thousandBytes = (0x1f :: 0x8b :: thousandBytes, 1) :=
  encode_large frameCodec (by rw [thousandBytes_length]) rfl

theorem thousandBytes_within :
    ∀ b : Bytes, frameCodec.Marshal thousandBytes = .ok b →
      (encode frameCodec b).1.length ≤ TOO_BIG := by
  intro b hb
  have : b = thousandBytes := by
    simp only [frameCodec, Except.ok.injEq] at hb
    exact hb.symm
  rw [this, thousandBytes_encode]
  show (0x1f :: 0x8b :: thousandBytes).length ≤ TOO_BIG
  rw [List.length_cons, List.length_cons, thousandBytes_length]
  decide

theorem Set_thousandBytes_ok :
    (Set unitTests frameCodec (str "Pri") (str "Sec") (str "Key") thousandBytes
      60000000000 Client.empty).1 = none := by
  decide!

theorem Set_Get_roundtrip_witness :
    Client.empty.faults = [] ∧
    expiredAtOnce Client.empty.now (int32 (Int.tdiv 60000000000 Second)) = false ∧
    (Set unitTests frameCodec (str "Pri") (str "Sec") (str "Key") thousandBytes
      60000000000 Client.empty).1 = none ∧
    (Get unitTests frameCodec (str "Pri") (str "Sec") (str "Key") (str "old")
      (Set unitTests frameCodec (str "Pri") (str "Sec") (str "Key") thousandBytes
        60000000000 Client.empty).2).1 = none ∧
    (Get unitTests frameCodec (str "Pri") (str "Sec") (str "Key") (str "old")
      (Set unitTests frameCodec (str "Pri") (str "Sec") (str "Key") thousandBytes
        60000000000 Client.empty).2).2.1 = thousandBytes ∧
    (Set unitTests frameCodec (str "Pri") (str "Sec") (str "Key") thousandBytes
      60000000000 Client.empty).2.items (HashKey unitTests [secV1, str "Key"])
      = some { Value := 0x1f :: 0x8b :: thousandBytes, Flags := 1, Expiration := 60 } :=
  have hlive : expiredAtOnce Client.empty.now (int32 (Int.tdiv 60000000000 Second))
      = false := by decide
  have h := Set_Get_roundtrip unitTests frameCodec (str "Pri") (str "Sec") (str "Key")
    thousandBytes (str "old") 60000000000 Client.empty rfl frameCodec_Unmarshal
    frameCodec_gzipRead unitTests_keys_distinct hlive Set_thousandBytes_ok
    thousandBytes_within
  ⟨rfl, hlive, Set_thousandBytes_ok, h.1, h.2.1, by decide!⟩

/-! ## The size ceiling -/

theorem Client_Set_of_request_none {c : Client} (h : c.request.1 = none) (it : Item) :
    c.Set it
      = (.ok (), c.request.2.store it.Key
          { Value := it.Value, Flags := it.Flags, Expiration := it.Expiration }) := by
  unfold Client.Set
  cases hr : c.request with
  | mk f c2 =>
    rw [hr] at h
    simp only [] at h
    rw [h]

theorem Client_Set_of_request_some {c : Client} {err : Error} (h : c.request.1 = some err)
    (it : Item) : c.Set it = (.error err, c.request.2) := by
  unfold Client.Set
  cases hr : c.request with
  | mk f c2 =>
    rw [hr] at h
    simp only [] at h
    rw [h]

theorem request_items (c : Client) : c.request.2.items = c.items := by
  unfold Client.request
  cases c.faults <;> rfl

/-- C11, evaluated on the store `writeFails` (scope `"UnitTests"`, the three
counters of `("Pri", "Sec")` at 1, the fourth request failing) with the message
`"hello"`: key resolution and serialization succeed and the value to be stored
has 5 bytes, yet `Set` returns an error without writing the payload entry,
because the write itself fails. -/
theorem Set_errs_on_small_value :
    (getSPSK unitTests (str "Pri") (str "Sec") (str "Key") writeFails).1
      = .ok (HashKey unitTests [secV1, str "Key"]) ∧
    frameCodec.Marshal (str "hello") = .ok (str "hello") ∧
    (encode frameCodec (str "hello")).1.length = 5 ∧
    (Set unitTests frameCodec (str "Pri") (str "Sec") (str "Key") (str "hello") 0
      writeFails).1 = some (.ErrStore 1) ∧
    (Set unitTests frameCodec (str "Pri") (str "Sec") (str "Key") (str "hello") 0
      writeFails).2.items (HashKey unitTests [secV1, str "Key"]) = none := by
  decide!

/-- C11 as amended: with the key resolved to `encodedKey` on the store `c1`
and the message serialized to `b`, `Set` hands the value to be stored (the gzip
bytes when compression was applied, otherwise `b`) to the store exactly when
it has at most `TOO_BIG = 204800` bytes.  A longer value is never written: the
store stays as key resolution left it.  A value of at most 204800 bytes,
204800 included, is written when the store accepts the write, and `Set` then
returns no error; so is the compressed form, of at most 204800 bytes, of a
serialization that is itself longer.  When the write itself fails, `Set`
returns the error of the store and nothing is written. -/
theorem Set_writes_within_ceiling {Msg : Type} (pc : PC) (cd : Codec Msg) (p s k : Bytes)
    (m : Msg) (expiration : Int) (c c1 : Client) (encodedKey b : Bytes)
    (hres : getSPSK pc p s k c = (.ok encodedKey, c1)) (hb : cd.Marshal m = .ok b) :
    TOO_BIG = 204800 ∧
    ((encode cd b).1.length > 204800 → (Set pc cd p s k m expiration c).2 = c1) ∧
    ((encode cd b).1.length ≤ 204800 → c1.request.1 = none →
      (Set pc cd p s k m expiration c).1 = none ∧
      (Set pc cd p s k m expiration c).2
        = c1.request.2.store encodedKey
            { Value := (encode cd b).1, Flags := (encode cd b).2,
              Expiration := int32 (Int.tdiv expiration Second) }) ∧
    ((encode cd b).1.length ≤ 204800 → ∀ err : Error, c1.request.1 = some err →
      (Set pc cd p s k m expiration c).1 = some err ∧
      (Set pc cd p s k m expiration c).2.items = c1.items) ∧
    (∀ z : Bytes, b.length > 204800 → cd.gzipWrite b = .ok z → z.length ≤ 204800 →
      c1.request.1 = none →
      (Set pc cd p s k m expiration c).1 = none ∧
      (Set pc cd p s k m expiration c).2
        = c1.request.2.store encodedKey
            { Value := z, Flags := 1, Expiration := int32 (Int.tdiv expiration Second) }) := by
  have hT : TOO_BIG = 204800 := by decide
  have hsmall : (encode cd b).1.length ≤ 204800 → c1.request.1 = none →
      (Set pc cd p s k m expiration c).1 = none ∧
      (Set pc cd p s k m expiration c).2
        = c1.request.2.store encodedKey
            { Value := (encode cd b).1, Flags := (encode cd b).2,
              Expiration := int32 (Int.tdiv expiration Second) } := by
    intro h hreq
    rw [Set_of_resolved pc cd p s k m expiration hres hb, if_neg (by rw [hT]; omega),
      Client_Set_of_request_none hreq]
    exact ⟨rfl, rfl⟩
  refine ⟨hT, ?_, hsmall, ?_, ?_⟩
  · intro h
    rw [Set_of_resolved pc cd p s k m expiration hres hb, if_pos (by rw [hT]; exact h)]
  · intro h err hreq
    rw [Set_of_resolved pc cd p s k m expiration hres hb, if_neg (by rw [hT]; omega),
      Client_Set_of_request_some hreq]
    exact ⟨rfl, request_items c1⟩
  · intro z hlen hz hzl hreq
    have he : encode cd b = (z, 1) := encode_large cd (by omega) hz
    have := hsmall (by rw [he]; exact hzl) hreq
    rw [he] at this
    exact this

theorem Set_writes_within_ceiling_witness :
    getSPSK unitTests (str "Pri") (str "Sec") (str "Key") Client.empty
      = (.ok (HashKey unitTests [secV1, str "Key"]), secondaryAtOne) ∧
    frameCodec.Marshal thousandBytes = .ok thousandBytes ∧
    (encode frameCodec thousandBytes).1.length ≤ 204800 ∧
    secondaryAtOne.request.1 = none ∧
    (Set unitTests frameCodec (str "Pri") (str "Sec") (str "Key") thousandBytes 0
      Client.empty).1 = none ∧
    (Set unitTests frameCodec (str "Pri") (str "Sec") (str "Key") thousandBytes 0
      Client.empty).2
      = secondaryAtOne.request.2.store (HashKey unitTests [secV1, str "Key"])
          { Value := (encode frameCodec thousandBytes).1,
            Flags := (encode frameCodec thousandBytes).2,
            Expiration := int32 (Int.tdiv 0 Second) } :=
  have hle : (encode frameCodec thousandBytes).1.length ≤ 204800 :=
    thousandBytes_within thousandBytes rfl
  have h := (Set_writes_within_ceiling unitTests frameCodec (str "Pri") (str "Sec")
    (str "Key") thousandBytes 0 Client.empty secondaryAtOne
    (HashKey unitTests [secV1, str "Key"]) thousandBytes getSPSK_empty rfl).2.2.1 hle rfl
  ⟨getSPSK_empty, rfl, hle, rfl, h.1, h.2⟩

/-! ## The store an oversize Set leaves -/

/-- The entry a resolution leaves under `x`: `"1"` where `x` is the key
resolved and held no number, the entry it held otherwise. -/
theorem ensure_items_eq (c : Client) (key x : Bytes) :
    (c.ensure key).items x
      = if x = key ∧ c.counter x = none then
          some { Value := str "1", Flags := 0, Expiration := 0 }
        else c.items x := by
  by_cases hx : x = key
  · subst hx
    cases h : c.counter x with
    | some n => rw [ensure_of_counter h]; simp
    | none =>
      simp only [Client.ensure, h]
      rw [put_items_self]
      simp
  · rw [ensure_items_of_ne c key hx]
    simp [hx]

theorem ensure_items_step {c d : Client} {x : Bytes} {P : Prop} [Decidable P]
    (h : d.items x
      = if P ∧ c.counter x = none then
          some { Value := str "1", Flags := 0, Expiration := 0 }
        else c.items x) (key : Bytes) :
    (d.ensure key).items x
      = if (P ∨ x = key) ∧ c.counter x = none then
          some { Value := str "1", Flags := 0, Expiration := 0 }
        else c.items x := by
  rw [ensure_items_eq]
  cases hc : c.counter x with
  | some n =>
    simp only [hc, and_false, if_false, reduceCtorEq] at h ⊢
    have hd : d.counter x = some n := by rw [counter_of_items_eq h, hc]
    simp [hd, h]
  | none =>
    simp only [hc, and_true] at h ⊢
    by_cases hp : P
    · rw [if_pos hp] at h
      have hd : d.counter x = some 1 := by
        simp [Client.counter, h, ParseUint_one]
      simp [hd, hp, h]
    · rw [if_neg hp] at h
      have hd : d.counter x = none := by rw [counter_of_items_eq h, hc]
      simp [hd, hp, h]

/-- The entries of the store that key resolution leaves, against the store
before it: a counter of the chain that was absent or held no number holds
`"1"`, every other entry is as it was. -/
theorem getSPSK_items_eq (pc : PC) (p s k : Bytes) {c : Client} (hf : c.faults = [])
    (x : Bytes) :
    (getSPSK pc p s k c).2.items x
      = if (x = scopeKey pc ∨ x = primaryKey pc c.version p ∨
            x = secondaryKey pc c.version p s) ∧ c.counter x = none then
          some { Value := str "1", Flags := 0, Expiration := 0 }
        else c.items x := by
  rw [getSPSK_store_of_healthy pc p s k hf]
  have h0 : c.items x
      = if False ∧ c.counter x = none then
          some { Value := str "1", Flags := 0, Expiration := 0 }
        else c.items x := by simp
  have h3 := ensure_items_step (ensure_items_step (ensure_items_step h0 (scopeKey pc))
    (primaryKey pc c.version p)) (secondaryKey pc c.version p s)
  rw [h3]
  simp only [false_or, or_assoc]

theorem getSPSK_items_of_ne (pc : PC) (p s k : Bytes) {c : Client} (hf : c.faults = [])
    {x : Bytes} (h1 : x ≠ scopeKey pc) (h2 : x ≠ primaryKey pc c.version p)
    (h3 : x ≠ secondaryKey pc c.version p s) :
    (getSPSK pc p s k c).2.items x = c.items x := by
  rw [getSPSK_store_of_healthy pc p s k hf, ensure_items_of_ne _ _ h3,
    ensure_items_of_ne _ _ h2, ensure_items_of_ne _ _ h1]

theorem getSPSK_store_of_counters (pc : PC) (p s k : Bytes) {c : Client} (hf : c.faults = [])
    {n1 n2 n3 : Nat} (h1 : c.counter (scopeKey pc) = some n1)
    (h2 : c.counter (primaryKey pc c.version p) = some n2)
    (h3 : c.counter (secondaryKey pc c.version p s) = some n3) :
    (getSPSK pc p s k c).2 = c := by
  rw [getSPSK_store_of_healthy pc p s k hf, ensure_of_counter h1, ensure_of_counter h2,
    ensure_of_counter h3]

theorem oversize_encode : encode frameCodec oversize = (0x1f :: 0x8b :: oversize, 1) :=
  encode_large frameCodec (by rw [oversize_length]; norm_num) rfl

theorem oversize_framed_length : (0x1f :: 0x8b :: oversize : Bytes).length = 204803 := by
  rw [List.length_cons, List.length_cons, oversize_length]

theorem oversize_encoded : (encode frameCodec oversize).1.length = 204803 := by
  rw [oversize_encode]
  exact oversize_framed_length

theorem oversize_over : (encode frameCodec oversize).1.length > TOO_BIG := by
  rw [oversize_encoded]; decide

/-- C12, evaluated on the empty store with scope `"UnitTests"` and a message
of 204801 bytes that do not compress: `Set` fails on the size ceiling, yet the
store is not the one before the call, because key resolution ran first and
created the scope counter (absent before, `"1"` after). -/
theorem oversize_Set_creates_counters :
    (encode frameCodec oversize).1.length > TOO_BIG ∧
    (Set unitTests frameCodec (str "Pri") (str "Sec") (str "Key") oversize 0 Client.empty).1
      ≠ none ∧
    Client.empty.items (HashKey unitTests [unitTests.Scope]) = none ∧
    (Set unitTests frameCodec (str "Pri") (str "Sec") (str "Key") oversize 0 Client.empty).2.items
      (HashKey unitTests [unitTests.Scope]) = some (counterEntry (str "1")) := by
  have h := Set_of_healthy unitTests frameCodec (str "Pri") (str "Sec") (str "Key")
    0 (c := Client.empty) rfl (b := oversize) (m := oversize) rfl
  rw [if_pos oversize_over, oversize_encoded, getSPSK_empty] at h
  rw [h]
  exact ⟨oversize_over, fun hn => Option.noConfusion hn, rfl, by decide!⟩

/-- C12 as amended: on a store whose requests do not fail, a `Set` whose value
to be stored exceeds the size ceiling leaves the store that key resolution
leaves, and writes nothing else.  Under each of the three counter keys of the
chain (scope, primary, secondary) that was absent or held no number the store
now holds `"1"`; every other entry, the one under the physical key included,
is as before the call; and when the three counters already hold numbers the
store is identical to the store before the call. -/
theorem oversize_Set_store {Msg : Type} (pc : PC) (cd : Codec Msg) (p s k : Bytes) (m : Msg)
    (expiration : Int) (c : Client) (b : Bytes) (hf : c.faults = [])
    (hb : cd.Marshal m = .ok b) (hbig : (encode cd b).1.length > TOO_BIG) :
    (Set pc cd p s k m expiration c).2 = (getSPSK pc p s k c).2 ∧
    (∀ x : Bytes, (Set pc cd p s k m expiration c).2.items x
      = if (x = scopeKey pc ∨ x = primaryKey pc c.version p ∨
            x = secondaryKey pc c.version p s) ∧ c.counter x = none then
          some { Value := str "1", Flags := 0, Expiration := 0 }
        else c.items x) ∧
    (Set pc cd p s k m expiration c).2.faults = [] ∧
    (Set pc cd p s k m expiration c).2.now = c.now ∧
    (∀ n1 n2 n3 : Nat, c.counter (scopeKey pc) = some n1 →
      c.counter (primaryKey pc c.version p) = some n2 →
      c.counter (secondaryKey pc c.version p s) = some n3 →
      (Set pc cd p s k m expiration c).2 = c) := by
  have h : (Set pc cd p s k m expiration c).2 = (getSPSK pc p s k c).2 := by
    rw [Set_of_healthy pc cd p s k m expiration hf hb, if_pos hbig]
  rw [h]
  exact ⟨rfl, fun x => getSPSK_items_eq pc p s k hf x, getSPSK_faults pc p s k hf,
    getSPSK_now pc p s k hf,
    fun n1 n2 n3 h1 h2 h3 => getSPSK_store_of_counters pc p s k hf h1 h2 h3⟩

theorem oversize_Set_store_witness :
    Client.empty.faults = [] ∧ frameCodec.Marshal oversize = .ok oversize ∧
    (encode frameCodec oversize).1.length > TOO_BIG ∧
    (Set unitTests frameCodec (str "Pri") (str "Sec") (str "Key") oversize 0 Client.empty).2
      = (getSPSK unitTests (str "Pri") (str "Sec") (str "Key") Client.empty).2 ∧
    ∀ x : Bytes,
      (Set unitTests frameCodec (str "Pri") (str "Sec") (str "Key") oversize 0
        Client.empty).2.items x
        = if (x = scopeKey unitTests ∨ x = primaryKey unitTests Client.empty.version (str "Pri") ∨
              x = secondaryKey unitTests Client.empty.version (str "Pri") (str "Sec")) ∧
              Client.empty.counter x = none then
            some { Value := str "1", Flags := 0, Expiration := 0 }
          else Client.empty.items x :=
  have h := oversize_Set_store unitTests frameCodec (str "Pri") (str "Sec") (str "Key")
    oversize 0 Client.empty oversize rfl rfl oversize_over
  ⟨rfl, rfl, oversize_over, h.1, h.2.1⟩

/-! ## A quiet logger -/

/-- C13, evaluated with scope `"UnitTests"`, the logger switched off, the
empty store and a message of 204801 bytes that do not compress: the
serialization has 1000 bytes or more and compression succeeds, so the value to
be stored is the compressed one with flag 1; it has more than `TOO_BIG` bytes,
and `Set` returns no error, yet the store holds no entry under the physical
key: neither the compressed bytes with flag 1 nor any other.  `Set` returns
what the logger returns, and a logger that is switched off returns nil; with
the logger on, the same call returns an error. -/
theorem quiet_oversize_Set_stores_nothing :
    frameCodec.Marshal oversize = .ok oversize ∧
    oversize.length ≥ 1000 ∧
    (∃ z : Bytes, compressBytes frameCodec oversize = .ok z) ∧
    (encode frameCodec oversize).2 = 1 ∧
    (encode frameCodec oversize).1.length > TOO_BIG ∧
    (Set unitTestsQuiet frameCodec (str "Pri") (str "Sec") (str "Key") oversize 0
      Client.empty).1 = none ∧
    (Set unitTestsQuiet frameCodec (str "Pri") (str "Sec") (str "Key") oversize 0
      Client.empty).2.items
        (physicalKey unitTestsQuiet Client.empty.version (str "Pri") (str "Sec") (str "Key"))
      = none ∧
    (Set unitTests frameCodec (str "Pri") (str "Sec") (str "Key") oversize 0
      Client.empty).1 ≠ none := by
  have hq := Set_of_healthy unitTestsQuiet frameCodec (str "Pri") (str "Sec") (str "Key")
    0 (c := Client.empty) rfl (b := oversize) (m := oversize) rfl
  rw [if_pos oversize_over] at hq
  have hl := Set_of_healthy unitTests frameCodec (str "Pri") (str "Sec") (str "Key")
    0 (c := Client.empty) rfl (b := oversize) (m := oversize) rfl
  rw [if_pos oversize_over, oversize_encoded] at hl
  have hd : physicalKey unitTestsQuiet Client.empty.version (str "Pri") (str "Sec") (str "Key")
        ≠ scopeKey unitTestsQuiet ∧
      physicalKey unitTestsQuiet Client.empty.version (str "Pri") (str "Sec") (str "Key")
        ≠ primaryKey unitTestsQuiet Client.empty.version (str "Pri") ∧
      physicalKey unitTestsQuiet Client.empty.version (str "Pri") (str "Sec") (str "Key")
        ≠ secondaryKey unitTestsQuiet Client.empty.version (str "Pri") (str "Sec") := by
    decide!
  have hq1 : (Set unitTestsQuiet frameCodec (str "Pri") (str "Sec") (str "Key") oversize 0
      Client.empty).1 = none := by rw [hq]; rfl
  have hq2 : (Set unitTestsQuiet frameCodec (str "Pri") (str "Sec") (str "Key") oversize 0
      Client.empty).2
      = (getSPSK unitTestsQuiet (str "Pri") (str "Sec") (str "Key") Client.empty).2 := by
    rw [hq]
  have hl1 : (Set unitTests frameCodec (str "Pri") (str "Sec") (str "Key") oversize 0
      Client.empty).1 ≠ none := by
    rw [hl]
    exact fun hn => Option.noConfusion hn
  refine ⟨rfl, by rw [oversize_length]; norm_num, ⟨_, rfl⟩, by rw [oversize_encode],
    oversize_over, hq1, ?_, hl1⟩
  rw [hq2, getSPSK_items_of_ne unitTestsQuiet (str "Pri") (str "Sec") (str "Key") rfl
    hd.1 hd.2.1 hd.2.2]
  rfl

/-! ## Monotonic counters -/

theorem counter_getSPSK {pc : PC} (p s k : Bytes) {c : Client} (hf : c.faults = [])
    {x : Bytes} {n : Nat} (hx : c.counter x = some n) :
    (getSPSK pc p s k c).2.counter x = some n := by
  rw [getSPSK_store_of_healthy pc p s k hf]
  exact counter_ensure_of_counter _ (counter_ensure_of_counter _ (counter_ensure_of_counter _ hx))

theorem Client_Get_of_healthy {c : Client} (hf : c.faults = []) (key : Bytes) :
    (c.Get key).2 = c := by
  unfold Client.Get
  rw [request_of_healthy hf]
  simp only []
  split <;> rfl

/-- The store `Get` leaves when no request fails is the one key resolution
left. -/
theorem Get_store_of_healthy {Msg : Type} (pc : PC) (cd : Codec Msg) (p s k : Bytes)
    (out : Msg) {c : Client} (hf : c.faults = []) :
    (Get pc cd p s k out c).2.2 = (getSPSK pc p s k c).2 := by
  have hf1 := getSPSK_faults pc p s k hf
  have hg := fun key => Client_Get_of_healthy hf1 key
  unfold Get
  cases h : getSPSK pc p s k c with
  | mk r c1 =>
    rw [h] at hg
    cases r with
    | error e => rfl
    | ok encodedKey =>
      simp only []
      have h2 := hg encodedKey
      cases hh : c1.Get encodedKey with
      | mk r2 c2 =>
        rw [hh] at h2
        simp only [] at h2
        cases r2 with
        | error e => exact h2
        | ok item =>
          simp only []
          split
          · split <;> exact h2
          · exact h2

/-- The entries `Set` leaves when no request fails: apart from the one under
the physical key, those key resolution left. -/
theorem Set_store_of_healthy {Msg : Type} (pc : PC) (cd : Codec Msg) (p s k : Bytes) (m : Msg)
    (expiration : Int) {c : Client} (hf : c.faults = []) {x : Bytes}
    (hx : x ≠ physicalKey pc c.version p s k) :
    (Set pc cd p s k m expiration c).2.items x = (getSPSK pc p s k c).2.items x := by
  cases hb : cd.Marshal m with
  | error e => rw [Set_of_Marshal_error pc cd p s k m expiration hf hb]
  | ok b =>
    rw [Set_of_healthy pc cd p s k m expiration hf hb]
    by_cases hbig : (encode cd b).1.length > TOO_BIG
    · rw [if_pos hbig]
    · rw [if_neg hbig]
      exact store_items_of_ne _ _ _ hx

theorem counter_invalidateKey (pc : PC) (key : Bytes) {c : Client} (hf : c.faults = [])
    {x : Bytes} {n : Nat} (hx : c.counter x = some n) (hn : n < 2 ^ 64 - 1) :
    ∃ n' : Nat, (invalidateKey pc key c).counter x = some n' ∧ n ≤ n' ∧ n' ≤ n + 1 := by
  by_cases h : x = key
  · subst h
    refine ⟨n + 1, ?_, by omega, le_refl _⟩
    have := Increment_counter hf hx 1
    have h64 : (2 : Nat) ^ 64 = 18446744073709551616 := by norm_num
    rw [Nat.mod_eq_of_lt (by omega)] at this
    exact this
  · refine ⟨n, ?_, le_refl _, by omega⟩
    unfold invalidateKey
    rw [counter_of_items_eq (Increment_items_of_ne c key 1 h), hx]

/-- C14, evaluated on two stores with scope `"UnitTests"`.  On `scopeAtMax`
the scope counter holds `2^64 - 1` and `invalidateScope` leaves 0: the
increment of the store wraps.  On `scopeAtFiveReadFails` the scope counter
holds 5, the read of it fails with an error that is not a cache miss, and
`getSPSK` leaves 1. -/
theorem counter_decreases :
    scopeAtMax.counter (HashKey unitTests [unitTests.Scope]) = some 18446744073709551615 ∧
    (invalidateScope unitTests scopeAtMax).counter (HashKey unitTests [unitTests.Scope])
      = some 0 ∧
    scopeAtFiveReadFails.counter (HashKey unitTests [unitTests.Scope]) = some 5 ∧
    (getSPSK unitTests (str "Pri") (str "Sec") (str "Key") scopeAtFiveReadFails).2.counter
      (HashKey unitTests [unitTests.Scope]) = some 1 := by
  decide!

/-- C14 as amended: on a store whose requests do not fail, an entry that holds
the number `n` still holds `n` after `getVersionedKey`, `getSPSK` and `Get`,
and after `Set` unless it is the entry under the physical key, where `Set`
writes the payload; after `invalidateScope`, `invalidatePrimary` and
`invalidateSecondary` it holds `n` or `n + 1`, provided `n < 2^64 - 1`. -/
theorem counters_monotonic {Msg : Type} (pc : PC) (cd : Codec Msg) (c : Client) (x : Bytes)
    (n : Nat) (hf : c.faults = []) (hx : c.counter x = some n) :
    (∀ key : Bytes, (getVersionedKey pc key c).2.counter x = some n) ∧
    (∀ p s k : Bytes, (getSPSK pc p s k c).2.counter x = some n) ∧
    (∀ (p s k : Bytes) (out : Msg), (Get pc cd p s k out c).2.2.counter x = some n) ∧
    (∀ (p s k : Bytes) (m : Msg) (expiration : Int), x ≠ physicalKey pc c.version p s k →
      (Set pc cd p s k m expiration c).2.counter x = some n) ∧
    (n < 2 ^ 64 - 1 →
      (∃ n' : Nat, (invalidateScope pc c).counter x = some n' ∧ n ≤ n' ∧ n' ≤ n + 1) ∧
      (∀ p : Bytes,
        ∃ n' : Nat, (invalidatePrimary pc p c).counter x = some n' ∧ n ≤ n' ∧ n' ≤ n + 1) ∧
      (∀ p s : Bytes,
        ∃ n' : Nat, (invalidateSecondary pc p s c).counter x = some n' ∧ n ≤ n' ∧
          n' ≤ n + 1)) := by
  refine ⟨?_, fun p s k => counter_getSPSK p s k hf hx, ?_, ?_, ?_⟩
  · intro key
    rw [getVersionedKey_of_healthy pc key hf]
    exact counter_ensure_of_counter _ hx
  · intro p s k out
    rw [Get_store_of_healthy pc cd p s k out hf]
    exact counter_getSPSK p s k hf hx
  · intro p s k m expiration hne
    rw [counter_of_items_eq (Set_store_of_healthy pc cd p s k m expiration hf hne)]
    exact counter_getSPSK p s k hf hx
  · intro hn
    refine ⟨counter_invalidateKey pc _ hf hx hn, ?_, ?_⟩
    · intro p
      rw [invalidatePrimary_of_healthy pc p hf]
      exact counter_invalidateKey pc _ (by rw [ensure_faults, hf])
        (counter_ensure_of_counter _ hx) hn
    · intro p s
      rw [invalidateSecondary_of_healthy pc p s hf]
      exact counter_invalidateKey pc _ (by rw [ensure_faults, ensure_faults, hf])
        (counter_ensure_of_counter _ (counter_ensure_of_counter _ hx)) hn

theorem counters_monotonic_witness :
    primaryAtFive.faults = [] ∧ primaryAtFive.counter priKey = some 5 ∧
    (∀ p s k : Bytes, (getSPSK unitTests p s k primaryAtFive).2.counter priKey = some 5) ∧
    (5 < 2 ^ 64 - 1 →
      ∃ n' : Nat, (invalidateScope unitTests primaryAtFive).counter priKey = some n' ∧
        5 ≤ n' ∧ n' ≤ 5 + 1) :=
  have hx : primaryAtFive.counter priKey = some 5 := by decide!
  have h := counters_monotonic unitTests frameCodec primaryAtFive priKey 5 rfl hx
  ⟨rfl, hx, h.2.1, fun hn => (h.2.2.2.2 hn).1⟩

/-! ## Misses and the shape of keys -/

/-- C16: on a store whose requests do not fail and which, once the key is
resolved, holds no entry at the physical key of `(p, s, k)`, `Get(p, s, k, out)`
returns the cache-miss error of the store and leaves `out` as it was; it does
not return success. -/
theorem Get_miss {Msg : Type} (pc : PC) (cd : Codec Msg) (p s k : Bytes) (out : Msg)
    (c : Client) (hf : c.faults = [])
    (hmiss : (getSPSK pc p s k c).2.items (physicalKey pc c.version p s k) = none) :
    (getSPSK pc p s k c).1 = .ok (physicalKey pc c.version p s k) ∧
    (Get pc cd p s k out c).1 = some .ErrCacheMiss ∧
    (Get pc cd p s k out c).1 ≠ none ∧
    (Get pc cd p s k out c).2.1 = out := by
  have hf1 := getSPSK_faults pc p s k hf
  have hkey : (getSPSK pc p s k c).1 = .ok (physicalKey pc c.version p s k) := by
    rw [getSPSK_of_healthy pc p s k hf]
  have hget : ((getSPSK pc p s k c).2.Get (physicalKey pc c.version p s k)).1
      = .error .ErrCacheMiss := by
    unfold Client.Get
    rw [request_of_healthy hf1]
    simp only [hmiss]
  have hG : (Get pc cd p s k out c).1 = some .ErrCacheMiss ∧
      (Get pc cd p s k out c).2.1 = out := by
    unfold Get
    cases h : getSPSK pc p s k c with
    | mk r c1 =>
      rw [h] at hkey hget
      simp only [] at hkey hget
      rw [hkey]
      simp only []
      cases hh : c1.Get (physicalKey pc c.version p s k) with
      | mk r2 c2 =>
        rw [hh] at hget
        simp only [] at hget
        rw [hget]
        exact ⟨rfl, rfl⟩
  exact ⟨hkey, hG.1, by rw [hG.1]; simp, hG.2⟩

theorem Get_miss_witness :
    Client.empty.faults = [] ∧
    (getSPSK unitTests (str "Pri") (str "Sec") (str "Key") Client.empty).2.items
      (physicalKey unitTests Client.empty.version (str "Pri") (str "Sec") (str "Key")) = none ∧
    (Get unitTests frameCodec (str "Pri") (str "Sec") (str "Key") (str "old")
      Client.empty).1 = some .ErrCacheMiss ∧
    (Get unitTests frameCodec (str "Pri") (str "Sec") (str "Key") (str "old")
      Client.empty).2.1 = str "old" :=
  have hmiss : (getSPSK unitTests (str "Pri") (str "Sec") (str "Key") Client.empty).2.items
      (physicalKey unitTests Client.empty.version (str "Pri") (str "Sec") (str "Key"))
      = none := by
    rw [getSPSK_empty]
    decide!
  have h := Get_miss unitTests frameCodec (str "Pri") (str "Sec") (str "Key") (str "old")
    Client.empty rfl hmiss
  ⟨rfl, hmiss, h.2.1, h.2.2.2⟩

/-- C17, evaluated on the store `barAtFive` (scope `"UnitTests"`, counter of
`"Bar"` at 5): `getVersionedKey("Bar")` is not `HashKey("Bar" ++ "|" ++ "5")`,
the digest over the raw key itself; it is the digest over the hex digest of the
raw key, `HashKey(HashKey("Bar") ++ "|" ++ "5")`. -/
theorem versionedKey_not_over_raw_key :
    barAtFive.counter (HashKey unitTests [str "Bar"]) = some 5 ∧
    (getVersionedKey unitTests (str "Bar") barAtFive).1
      ≠ .ok (HashKey unitTests [str "Bar" ++ str "|" ++ str "5"]) ∧
    (getVersionedKey unitTests (str "Bar") barAtFive).1
      = .ok (HashKey unitTests [HashKey unitTests [str "Bar"] ++ str "|" ++ str "5"]) := by
  decide!

/-- C17 as amended: on a store whose requests do not fail, for every raw key
`r` whose counter holds `v`, `getVersionedKey(r)` returns
`HashKey(HashKey(r) ++ "|" ++ decimal(v))`: the digest is taken over the hex
digest of the raw key, followed by `"|"` and the version in decimal, and the
store is left as it was. -/
theorem getVersionedKey_over_digest (pc : PC) (r : Bytes) (c : Client) (v : Nat)
    (hf : c.faults = []) (hv : c.counter (HashKey pc [r]) = some v) :
    getVersionedKey pc r c
      = (.ok (HashKey pc [HashKey pc [r] ++ str "|" ++ FormatUint v]), c) ∧
    (v < 2 ^ 64 → ParseUint (FormatUint v) = .ok v) := by
  refine ⟨?_, fun h => ParseUint_FormatUint v h⟩
  rw [getVersionedKey_of_healthy pc r hf, ensure_of_counter hv, version_of_counter hv]
  rfl

theorem getVersionedKey_over_digest_witness :
    barAtFive.faults = [] ∧ barAtFive.counter (HashKey unitTests [str "Bar"]) = some 5 ∧
    FormatUint 5 = str "5" ∧
    getVersionedKey unitTests (str "Bar") barAtFive
      = (.ok (HashKey unitTests [HashKey unitTests [str "Bar"] ++ str "|" ++ FormatUint 5]),
         barAtFive) :=
  have hv : barAtFive.counter (HashKey unitTests [str "Bar"]) = some 5 := by decide!
  ⟨rfl, hv, by decide,
   (getVersionedKey_over_digest unitTests (str "Bar") barAtFive 5 rfl hv).1⟩

/-- C18, evaluated: `ConcatKeys("ab", "c")` and `ConcatKeys("a", "bc")` are not
the same string, and `HashKey("ab", "c")` is not `HashKey("a", "bc")`. -/
theorem ConcatKeys_ab_c_ne_a_bc :
    ConcatKeys unitTests [str "ab", str "c"] ≠ ConcatKeys unitTests [str "a", str "bc"] ∧
    HashKey unitTests [str "ab", str "c"] ≠ HashKey unitTests [str "a", str "bc"] := by
  decide!

/-- C18 as amended: the separator-based join keeps `("ab", "c")` and
`("a", "bc")` apart, their joins being `"ab|c"` and `"a|bc"`; what it confuses
is parts that contain the separator, such as `("a|b", "c")` and `("a", "b|c")`,
which both join to `"a|b|c"` and therefore have the same `HashKey`. -/
theorem ConcatKeys_confuses_separator (pc : PC) :
    ConcatKeys pc [str "ab", str "c"] = str "ab|c" ∧
    ConcatKeys pc [str "a", str "bc"] = str "a|bc" ∧
    str "ab|c" ≠ str "a|bc" ∧
    ConcatKeys pc [str "a|b", str "c"] = str "a|b|c" ∧
    ConcatKeys pc [str "a", str "b|c"] = str "a|b|c" ∧
    HashKey pc [str "a|b", str "c"] = HashKey pc [str "a", str "b|c"] := by
  have h1 : ConcatKeys unitTests [str "a|b", str "c"] = str "a|b|c" := by decide
  have h2 : ConcatKeys unitTests [str "a", str "b|c"] = str "a|b|c" := by decide
  have h3 : ConcatKeys unitTests [str "ab", str "c"] = str "ab|c" := by decide
  have h4 : ConcatKeys unitTests [str "a", str "bc"] = str "a|bc" := by decide
  refine ⟨h3, h4, by decide, h1, h2, ?_⟩
  show hexEncodeToString (SHA256.Sum256 (ConcatKeys unitTests [str "a|b", str "c"]))
    = hexEncodeToString (SHA256.Sum256 (ConcatKeys unitTests [str "a", str "b|c"]))
  rw [h1, h2]

/-! ## Injectivity of the join -/

theorem separator_eq : separator = [124] := by decide

/-- The join of a non-empty list: the first part, then nothing or the
separator and the join of the rest. -/
theorem Join_cons (a : Bytes) (rest : List Bytes) (sep : Bytes) :
    Join (a :: rest) sep = a ++ (if rest = [] then [] else sep ++ Join rest sep) := by
  cases rest with
  | nil => simp [Join]
  | cons b r => simp [Join]

/-- Two strings free of the byte `t`, each followed by nothing or by a string
that starts with `t`, are equal when the whole strings are. -/
theorem append_split (t : Byte) :
    ∀ (a a' u u' : Bytes), t ∉ a → t ∉ a' → (u = [] ∨ u.head? = some t) →
      (u' = [] ∨ u'.head? = some t) → a ++ u = a' ++ u' → a = a' ∧ u = u' := by
  intro a
  induction a with
  | nil =>
    intro a' u u' _ ha' hu _ h
    cases a' with
    | nil => exact ⟨rfl, h⟩
    | cons y ys =>
      exfalso
      simp only [List.nil_append, List.cons_append] at h
      rcases hu with hu | hu
      · rw [hu] at h; cases h
      · rw [h] at hu
        simp only [List.head?_cons, Option.some.injEq] at hu
        exact ha' (by rw [hu]; exact List.mem_cons_self _ _)
  | cons x xs ih =>
    intro a' u u' ha ha' hu hu' h
    cases a' with
    | nil =>
      exfalso
      simp only [List.nil_append, List.cons_append] at h
      rcases hu' with hu' | hu'
      · rw [hu'] at h; cases h
      · rw [← h] at hu'
        simp only [List.head?_cons, Option.some.injEq] at hu'
        exact ha (by rw [hu']; exact List.mem_cons_self _ _)
    | cons y ys =>
      simp only [List.cons_append, List.cons.injEq] at h
      obtain ⟨hxy, hrest⟩ := h
      have := ih ys u u' (fun hm => ha (List.mem_cons_of_mem _ hm))
        (fun hm => ha' (List.mem_cons_of_mem _ hm)) hu hu' hrest
      exact ⟨by rw [hxy, this.1], this.2⟩

theorem Join_injective_of_separator_free :
    ∀ xs ys : List Bytes, xs ≠ [] → ys ≠ [] → (∀ x ∈ xs, (124 : Byte) ∉ x) →
      (∀ y ∈ ys, (124 : Byte) ∉ y) → Join xs [124] = Join ys [124] → xs = ys := by
  intro xs
  induction xs with
  | nil => intro ys h; exact absurd rfl h
  | cons a rest ih =>
    intro ys _ hy hxs hys h
    cases ys with
    | nil => exact absurd rfl hy
    | cons a' rest' =>
      rw [Join_cons, Join_cons] at h
      have hu : ∀ r : List Bytes,
          (if r = [] then [] else ([124] : Bytes) ++ Join r [124]) = [] ∨
          (if r = [] then [] else ([124] : Bytes) ++ Join r [124]).head? = some 124 := by
        intro r
        by_cases hr : r = []
        · left; rw [if_pos hr]
        · right; rw [if_neg hr]; rfl
      obtain ⟨haa, htail⟩ := append_split 124 a a' _ _
        (hxs a (List.mem_cons_self _ _)) (hys a' (List.mem_cons_self _ _))
        (hu rest) (hu rest') h
      by_cases hr : rest = []
      · by_cases hr' : rest' = []
        · rw [haa, hr, hr']
        · rw [if_pos hr, if_neg hr'] at htail
          cases htail
      · by_cases hr' : rest' = []
        · rw [if_neg hr, if_pos hr'] at htail
          cases htail
        · rw [if_neg hr, if_neg hr'] at htail
          simp only [List.cons_append, List.nil_append, List.cons.injEq, true_and] at htail
          have := ih rest' hr hr' (fun x hx => hxs x (List.mem_cons_of_mem _ hx))
            (fun y hy => hys y (List.mem_cons_of_mem _ hy)) htail
          rw [haa, this]

/-- C19: `ConcatKeys` is injective on non-empty lists of parts none of which
contains the byte of `"|"` (124, the one byte of `separator`): equal joins
come from equal lists.  Without the restriction it is not: `ConcatKeys("a|b")`
is `ConcatKeys("a", "b")`, so `HashKey` gives both the same digest; and the
empty list and the list of the empty string both join to the empty string. -/
theorem ConcatKeys_injective (pc : PC) (xs ys : List Bytes) (hx : xs ≠ []) (hy : ys ≠ [])
    (hxs : ∀ x ∈ xs, (124 : Byte) ∉ x) (hys : ∀ y ∈ ys, (124 : Byte) ∉ y) :
    separator = [124] ∧
    (ConcatKeys pc xs = ConcatKeys pc ys → xs = ys) ∧
    ConcatKeys pc [str "a|b"] = ConcatKeys pc [str "a", str "b"] ∧
    [str "a|b"] ≠ [str "a", str "b"] ∧
    HashKey pc [str "a|b"] = HashKey pc [str "a", str "b"] ∧
    ConcatKeys pc [] = str "" ∧ ConcatKeys pc [str ""] = str "" := by
  have h1 : ConcatKeys unitTests [str "a|b"] = ConcatKeys unitTests [str "a", str "b"] := by
    decide
  refine ⟨separator_eq, ?_, h1, by decide, ?_, rfl, rfl⟩
  · intro h
    unfold ConcatKeys at h
    rw [separator_eq] at h
    exact Join_injective_of_separator_free xs ys hx hy hxs hys h
  · show hexEncodeToString (SHA256.Sum256 (ConcatKeys unitTests [str "a|b"]))
      = hexEncodeToString (SHA256.Sum256 (ConcatKeys unitTests [str "a", str "b"]))
    rw [h1]

theorem ConcatKeys_injective_witness :
    [str "ab", str "c"] ≠ ([] : List Bytes) ∧ [str "a", str "bc"] ≠ ([] : List Bytes) ∧
    (∀ x ∈ [str "ab", str "c"], (124 : Byte) ∉ x) ∧
    (∀ y ∈ [str "a", str "bc"], (124 : Byte) ∉ y) ∧
    (ConcatKeys unitTests [str "ab", str "c"] = ConcatKeys unitTests [str "a", str "bc"] →
      [str "ab", str "c"] = [str "a", str "bc"]) :=
  have hx : ∀ x ∈ [str "ab", str "c"], (124 : Byte) ∉ x := by decide
  have hy : ∀ y ∈ [str "a", str "bc"], (124 : Byte) ∉ y := by decide
  ⟨by decide, by decide, hx, hy,
   (ConcatKeys_injective unitTests [str "ab", str "c"] [str "a", str "bc"]
     (by decide) (by decide) hx hy).2.1⟩

/-! ## Expiration -/

theorem int32_range (x : Int) :
    -2 ^ 31 ≤ int32 x ∧ int32 x < 2 ^ 31 ∧ (int32 x - x) % 2 ^ 32 = 0 := by
  unfold int32
  have h31 : (2 : Int) ^ 31 = 2147483648 := by norm_num
  have h32 : (2 : Int) ^ 32 = 4294967296 := by norm_num
  rw [h31, h32]
  omega

theorem int32_of_range (x : Int) (h0 : 0 ≤ x) (h1 : x < 2 ^ 31) : int32 x = x := by
  unfold int32
  have h31 : (2 : Int) ^ 31 = 2147483648 := by norm_num
  have h32 : (2 : Int) ^ 32 = 4294967296 := by norm_num
  rw [h31] at h1 ⊢
  rw [h32]
  omega

/-- C20: with the key resolved to `encodedKey` on the store `c1` and the
message serialized to `b`, the item `Set` hands to the store for the duration
`d` in nanoseconds carries the expiration `int32(d / 10^9)`: whenever the value
is within the size ceiling, the outcome of `Set` is the outcome of the write of
that item, and when the store accepts the write the store `Set` leaves is the
one in which that item was stored under `encodedKey`.  The quotient is
truncated toward zero, and its low 32 bits are read as a signed number, a value
in `[-2^31, 2^31)` congruent to the quotient modulo `2^32`.  So every duration
with `0 ≤ d < 1` second is stored as 0, like the zero duration, and when
`0 ≤ d / 10^9 < 2^31` the stored value is the whole number of seconds in `d`. -/
theorem Set_expiration {Msg : Type} (pc : PC) (cd : Codec Msg) (p s k : Bytes) (m : Msg)
    (d : Int) (c c1 : Client) (encodedKey b : Bytes)
    (hres : getSPSK pc p s k c = (.ok encodedKey, c1)) (hb : cd.Marshal m = .ok b) :
    ((encode cd b).1.length ≤ TOO_BIG →
      Set pc cd p s k m d c
        = match c1.Set { Key := encodedKey, Value := (encode cd b).1, Flags := (encode cd b).2,
                         Expiration := int32 (Int.tdiv d 1000000000) } with
          | (.error err, c2) => (some err, c2)
          | (.ok _, c2) => (none, c2)) ∧
    ((encode cd b).1.length ≤ TOO_BIG → c1.request.1 = none →
      (Set pc cd p s k m d c).1 = none ∧
      (Set pc cd p s k m d c).2
        = c1.request.2.store encodedKey
            { Value := (encode cd b).1, Flags := (encode cd b).2,
              Expiration := int32 (Int.tdiv d 1000000000) }) ∧
    (0 ≤ d → Int.tdiv d 1000000000 = d / 1000000000) ∧
    (d ≤ 0 → Int.tdiv d 1000000000 = -((-d) / 1000000000)) ∧
    -2 ^ 31 ≤ int32 (Int.tdiv d 1000000000) ∧ int32 (Int.tdiv d 1000000000) < 2 ^ 31 ∧
    (int32 (Int.tdiv d 1000000000) - Int.tdiv d 1000000000) % 2 ^ 32 = 0 ∧
    (0 ≤ d → d < 1000000000 →
      int32 (Int.tdiv d 1000000000) = 0 ∧
      int32 (Int.tdiv d 1000000000) = int32 (Int.tdiv 0 1000000000)) ∧
    (0 ≤ Int.tdiv d 1000000000 → Int.tdiv d 1000000000 < 2 ^ 31 →
      int32 (Int.tdiv d 1000000000) = Int.tdiv d 1000000000) := by
  have hr := int32_range (Int.tdiv d 1000000000)
  have hset : (encode cd b).1.length ≤ TOO_BIG →
      Set pc cd p s k m d c
        = match c1.Set { Key := encodedKey, Value := (encode cd b).1, Flags := (encode cd b).2,
                         Expiration := int32 (Int.tdiv d 1000000000) } with
          | (.error err, c2) => (some err, c2)
          | (.ok _, c2) => (none, c2) := by
    intro hfit
    rw [Set_of_resolved pc cd p s k m d hres hb, if_neg (Nat.not_lt.mpr hfit)]
    rfl
  have hzero : ∀ e : Int, 0 ≤ e → e < 1000000000 → int32 (Int.tdiv e 1000000000) = 0 := by
    intro e h0 h1
    rw [Int.tdiv_eq_zero_of_lt h0 h1]
    rfl
  refine ⟨hset, ?_, fun h => Int.tdiv_eq_ediv h (by norm_num), ?_, hr.1, hr.2.1, hr.2.2,
    ?_, fun h0 h1 => int32_of_range _ h0 h1⟩
  · intro hfit hreq
    rw [hset hfit, Client_Set_of_request_none hreq]
    exact ⟨rfl, rfl⟩
  · intro h
    have h2 : d = -(-d) := by omega
    rw [h2, Int.neg_tdiv, Int.tdiv_eq_ediv (by omega) (by norm_num)]
    simp
  · intro h0 h1
    exact ⟨hzero d h0 h1, by rw [hzero d h0 h1, hzero 0 (le_refl 0) (by norm_num)]⟩

theorem Set_expiration_witness :
    getSPSK unitTests (str "Pri") (str "Sec") (str "Key") Client.empty
      = (.ok (HashKey unitTests [secV1, str "Key"]), secondaryAtOne) ∧
    frameCodec.Marshal thousandBytes = .ok thousandBytes ∧
    (encode frameCodec thousandBytes).1.length ≤ TOO_BIG ∧
    secondaryAtOne.request.1 = none ∧
    (Set unitTests frameCodec (str "Pri") (str "Sec") (str "Key") thousandBytes
      60999999999 Client.empty).2
      = secondaryAtOne.request.2.store (HashKey unitTests [secV1, str "Key"])
          { Value := (encode frameCodec thousandBytes).1,
            Flags := (encode frameCodec thousandBytes).2,
            Expiration := int32 (Int.tdiv 60999999999 1000000000) } ∧
    (Set unitTests frameCodec (str "Pri") (str "Sec") (str "Key") thousandBytes
      60999999999 Client.empty).2.items (HashKey unitTests [secV1, str "Key"])
      = some { Value := 0x1f :: 0x8b :: thousandBytes, Flags := 1, Expiration := 60 } ∧
    int32 (Int.tdiv 60999999999 1000000000) = 60 ∧
    int32 (Int.tdiv 999999999 1000000000) = 0 ∧
    int32 (Int.tdiv (-1500000000) 1000000000) = -1 ∧
    int32 (Int.tdiv 2147483648000000000 1000000000) = -2147483648 :=
  have hfit : (encode frameCodec thousandBytes).1.length ≤ TOO_BIG :=
    thousandBytes_within thousandBytes rfl
  have h := (Set_expiration unitTests frameCodec (str "Pri") (str "Sec") (str "Key")
    thousandBytes 60999999999 Client.empty secondaryAtOne
    (HashKey unitTests [secV1, str "Key"]) thousandBytes getSPSK_empty rfl).2.1 hfit rfl
  ⟨getSPSK_empty, rfl, hfit, rfl, h.2, by decide!, by decide, by decide, by decide, by decide⟩

end Protocache
